import Mathlib

/-!
# go-tetris: a shallow embedding of the game engine in `main.go`

The Go program keeps one `Game` value (board, active piece mask, piece position, score)
and mutates it through `spawnPiece`, `moveDown`, `moveLeft`, `moveRight`, `rotate`,
`checkCollision`, `mergePiece` and `clearLines`.  Here every method is a function from the
state before the call to the state after it.

Modelling conventions.

* A Go slice is a `List`; `[][]bool` is `Grid`.  The rows of the board and of the mask are
  separately allocated slices (`NewGame`, `spawnPiece`, `rotate`), and `copy` transfers
  contents, so no two rows share storage and value semantics is exact.
* Indexing a slice outside `0 .. len-1` makes the Go runtime panic.  Every read and write
  goes through `index` / `assign`, which return `Fault.indexOutOfRange` in that case, so a
  result `Except.ok _` says that the call returned normally.
* Go's `int` is modelled by `Int`.  The program only ever adds or subtracts one to a
  coordinate and adds one hundred to the score, and compares the sum of a coordinate and a
  mask index below five with the board's bounds; no run brings these near the limits of
  the machine word.
* `rand.Intn(len(tetrominoes))` is an argument `pick : Fin 7` of `spawnPiece` and of
  `moveDown`.
* The `for` loop of `clearLines` changes its own counter, so it is run with a step budget
  (`clearLoop`); `Fault.fuelExhausted` is the answer when the budget is used up.
-/

namespace Tetris

/-! ## Data model -/

/-- Ways in which a call fails to return normally. -/
inductive Fault where
  | indexOutOfRange
  | inputError
  | fuelExhausted
deriving DecidableEq, Repr

deriving instance DecidableEq for Except

/-- Result of running a piece of the program. -/
abbrev Run (α : Type) := Except Fault α

/-- A slice of slices of booleans: the board (`[][]bool`) and the piece mask. -/
abbrev Grid := List (List Bool)

/-- Constant `boardWidth`. -/
def boardWidth : Nat := 10

/-- Constant `boardHeight`. -/
def boardHeight : Nat := 20

/-- The variable `tetrominoes`: I, O, T, L, J, S, Z. -/
def tetrominoes : List (List String) :=
  [ [".....", ".....", "XXXX.", ".....", "....."],
    [".....", ".....", ".XX..", ".XX..", "....."],
    [".....", ".....", ".XXX.", "..X..", "....."],
    [".....", ".....", "XXX..", "X....", "....."],
    [".....", ".....", "XXX..", "..X..", "....."],
    [".....", ".....", ".XX..", "XX...", "....."],
    [".....", ".....", "XX...", ".XX..", "....."] ]

/-- The struct `Game`. -/
structure Game where
  board : Grid
  currentPiece : Grid
  pieceX : Int
  pieceY : Int
  score : Int
deriving DecidableEq, Repr

/-! ## Slice primitives -/

/-- The values `0, 1, ..., n-1` taken by the counter of `for v := 0; v < n; v++`. -/
def upto (n : Nat) : List Int := (List.range n).map Int.ofNat

/-- The read `xs[i]`. -/
def index {α : Type} (xs : List α) (i : Int) : Run α :=
  if 0 ≤ i then
    match xs[i.toNat]? with
    | some v => .ok v
    | none => .error .indexOutOfRange
  else .error .indexOutOfRange

/-- The write `xs[i] = v`. -/
def assign {α : Type} (xs : List α) (i : Int) (v : α) : Run (List α) :=
  if 0 ≤ i ∧ i < xs.length then .ok (xs.set i.toNat v) else .error .indexOutOfRange

/-- The read `grid[y][x]`. -/
def cellAt (grid : Grid) (y x : Int) : Run Bool := do
  let row ← index grid y
  index row x

/-- The write `grid[y][x] = v`. -/
def assignCell (grid : Grid) (y x : Int) (v : Bool) : Run Grid := do
  let row ← index grid y
  let row1 ← assign row x v
  assign grid y row1

/-- The builtin `copy(dst, src)`: the first `min (len dst) (len src)` elements of `dst`
are overwritten by those of `src`. -/
def copySlice (dst src : List Bool) : List Bool :=
  src.take dst.length ++ dst.drop src.length

/-! ## The engine -/

/-- Function `NewGame`: twenty rows of ten `false`, no piece (`nil`), zero position and score. -/
def NewGame : Game :=
  { board := List.replicate boardHeight (List.replicate boardWidth false)
    currentPiece := []
    pieceX := 0
    pieceY := 0
    score := 0 }

/-- Body of the two loops of `checkCollision` at mask cell `(y, x)`: `true` when one of the
two `return true` statements is reached. -/
def collisionAt (g : Game) (y x : Int) : Run Bool := do
  let c ← cellAt g.currentPiece y x
  if c then
    let boardX := g.pieceX + x
    let boardY := g.pieceY + y
    if boardX < 0 ∨ boardX ≥ boardWidth ∨ boardY ≥ boardHeight then
      pure true
    else if boardY ≥ 0 then
      cellAt g.board boardY boardX
    else pure false
  else pure false

/-- Inner loop of `checkCollision` over the columns `xs` of mask row `y`. -/
def collisionRow (g : Game) (y : Int) : List Int → Run Bool
  | [] => pure false
  | x :: xs => do
    if (← collisionAt g y x) then pure true else collisionRow g y xs

/-- Outer loop of `checkCollision` over the mask rows `ys`. -/
def collisionRows (g : Game) : List Int → Run Bool
  | [] => pure false
  | y :: ys => do
    if (← collisionRow g y (upto 5)) then pure true else collisionRows g ys

/-- Method `checkCollision`. -/
def checkCollision (g : Game) : Run Bool :=
  collisionRows g (upto 5)

/-- Body of the two loops of `mergePiece` at mask cell `(y, x)`. -/
def mergeAt (g : Game) (y x : Int) (board : Grid) : Run Grid := do
  let c ← cellAt g.currentPiece y x
  if c then
    let boardY := g.pieceY + y
    let boardX := g.pieceX + x
    if boardY ≥ 0 ∧ boardY < boardHeight ∧ boardX ≥ 0 ∧ boardX < boardWidth then
      assignCell board boardY boardX true
    else pure board
  else pure board

/-- Method `mergePiece`. -/
def mergePiece (g : Game) : Run Game := do
  let board ← (upto 5).foldlM
    (fun b y => (upto 5).foldlM (fun b1 x => mergeAt g y x b1) b) g.board
  pure { g with board := board }

/-- Inner loop of `clearLines` that computes `full` for row `y`; it stops at the first
empty cell (`break`). -/
def rowIsFull (board : Grid) (y : Int) : List Int → Run Bool
  | [] => pure true
  | x :: xs => do
    if !(← cellAt board y x) then pure false else rowIsFull board y xs

/-- Loop `for moveY := y; moveY > 0; moveY--` of `clearLines`, started at `moveY`. -/
def shiftDown (board : Grid) : Nat → Run Grid
  | 0 => pure board
  | m + 1 => do
    let dst ← index board ((m + 1 : Nat) : Int)
    let src ← index board (((m + 1 : Nat) : Int) - 1)
    let board1 ← assign board ((m + 1 : Nat) : Int) (copySlice dst src)
    shiftDown board1 m

/-- Loop of `clearLines` that empties row 0. -/
def clearTop (board : Grid) : Run Grid :=
  (upto boardWidth).foldlM (fun b x => assignCell b 0 x false) board

/-- Main loop of `clearLines` with counter `y`; one unit of fuel per test of `y >= 0`. -/
def clearLoop : Nat → Game → Int → Run Game
  | 0, _, _ => .error .fuelExhausted
  | fuel + 1, g, y =>
    if y ≥ 0 then do
      let full ← rowIsFull g.board y (upto boardWidth)
      if full then
        let g1 := { g with score := g.score + 100 }
        let b1 ← shiftDown g1.board y.toNat
        let b2 ← clearTop b1
        clearLoop fuel { g1 with board := b2 } (y + 1 - 1)
      else
        clearLoop fuel g (y - 1)
    else pure g

/-- Step budget of `clearLines`: every row is examined once and cleared at most once, and
the test `y >= 0` fails once. -/
def clearFuel : Nat := 2 * boardHeight + 1

/-- Method `clearLines`. -/
def clearLines (g : Game) : Run Game :=
  clearLoop clearFuel g (boardHeight - 1)

/-- Loop `for j, char := range shape[i]` of `spawnPiece`; `j` is the byte offset of `char`. -/
def fillRow (piece : Grid) (i : Int) : Int → List Char → Run Grid
  | _, [] => pure piece
  | j, ch :: rest => do
    let piece1 ← assignCell piece i j (ch == 'X')
    fillRow piece1 i (j + ch.utf8Size) rest

/-- Loop `for i := range g.currentPiece` of `spawnPiece`. -/
def fillPiece (shape : List String) (piece : Grid) : Run Grid :=
  (upto 5).foldlM
    (fun p i => do
      let p1 ← assign p i (List.replicate 5 false)
      let line ← index shape i
      fillRow p1 i 0 line.toList)
    piece

/-- Method `spawnPiece`, the random index being `pick`. -/
def spawnPiece (g : Game) (pick : Fin 7) : Run (Game × Bool) := do
  let shape ← index tetrominoes (pick.val : Int)
  let piece ← fillPiece shape (List.replicate 5 [])
  let g1 := { g with currentPiece := piece, pieceX := boardWidth / 2 - 2, pieceY := 0 }
  if (← checkCollision g1) then pure (g1, false) else pure (g1, true)

/-- Method `moveDown`; `pick` is the shape drawn if the piece locks. -/
def moveDown (g : Game) (pick : Fin 7) : Run (Game × Bool) := do
  let g1 := { g with pieceY := g.pieceY + 1 }
  if (← checkCollision g1) then
    let g2 := { g1 with pieceY := g1.pieceY - 1 }
    let g3 ← mergePiece g2
    let g4 ← clearLines g3
    let (g5, spawned) ← spawnPiece g4 pick
    if !spawned then pure (g5, false) else pure (g5, true)
  else pure (g1, true)

/-- Method `moveLeft`. -/
def moveLeft (g : Game) : Run Game := do
  let g1 := { g with pieceX := g.pieceX - 1 }
  if (← checkCollision g1) then pure { g1 with pieceX := g1.pieceX + 1 } else pure g1

/-- Method `moveRight`. -/
def moveRight (g : Game) : Run Game := do
  let g1 := { g with pieceX := g.pieceX + 1 }
  if (← checkCollision g1) then pure { g1 with pieceX := g1.pieceX - 1 } else pure g1

/-- The two loops of `rotate` that fill `rotated`. -/
def rotatedMask (src : Grid) : Run Grid :=
  (upto 5).foldlM
    (fun r y => (upto 5).foldlM
      (fun r1 x => do
        let v ← cellAt src (4 - x) y
        assignCell r1 y x v) r)
    (List.replicate 5 (List.replicate 5 false))

/-- Method `rotate`. -/
def rotate (g : Game) : Run Game := do
  let rotated ← rotatedMask g.currentPiece
  let oldPiece := g.currentPiece
  let g1 := { g with currentPiece := rotated }
  if (← checkCollision g1) then pure { g1 with currentPiece := oldPiece } else pure g1

/-! ## The event loop of `main` -/

/-- Keys that `main` distinguishes. -/
inductive Key where
  | arrowLeft
  | arrowRight
  | arrowDown
  | arrowUp
  | esc
  | other
deriving DecidableEq, Repr

/-- What the `select` of the game loop receives: a tick of the ticker or a terminal event. -/
inductive Signal where
  | tick
  | key (k : Key)
  | error
  | otherEvent
deriving DecidableEq, Repr

/-- Control state of the game loop after one iteration. -/
inductive Phase where
  | running
  | gameOver
  | quit
deriving DecidableEq, Repr

/-- One iteration of the loop `for !gameOver` of `main` (drawing left out): the `select`
delivers `sig`, and `pick` is the shape drawn if a piece is spawned. -/
def loopStep (g : Game) (sig : Signal) (pick : Fin 7) : Run (Game × Phase) :=
  match sig with
  | .tick => do
    let (g1, alive) ← moveDown g pick
    if !alive then pure (g1, .gameOver) else pure (g1, .running)
  | .key .arrowLeft => do
    let g1 ← moveLeft g
    pure (g1, .running)
  | .key .arrowRight => do
    let g1 ← moveRight g
    pure (g1, .running)
  | .key .arrowDown => do
    let (g1, _) ← moveDown g pick
    pure (g1, .running)
  | .key .arrowUp => do
    let g1 ← rotate g
    pure (g1, .running)
  | .key .esc => pure (g, .quit)
  | .key .other => pure (g, .running)
  | .error => .error .inputError
  | .otherEvent => pure (g, .running)

/-! ## Well-formed states and pure readings -/

/-- A grid of `rows` rows, each of `cols` cells. -/
def hasShape (rows cols : Nat) (grid : Grid) : Prop :=
  grid.length = rows ∧ ∀ row ∈ grid, row.length = cols

instance (rows cols : Nat) (grid : Grid) : Decidable (hasShape rows cols grid) := by
  unfold hasShape; infer_instance

/-- A 20x10 board, as `NewGame` allocates it. -/
def isBoard (board : Grid) : Prop := hasShape 20 10 board

instance (board : Grid) : Decidable (isBoard board) := by
  unfold isBoard; infer_instance

/-- A 5x5 piece mask, as `spawnPiece` and `rotate` allocate it. -/
def isMask (mask : Grid) : Prop := hasShape 5 5 mask

instance (mask : Grid) : Decidable (isMask mask) := by
  unfold isMask; infer_instance

/-- Value of cell `(y, x)` of a grid, `false` outside the grid. -/
def get2 (grid : Grid) (y x : Int) : Bool :=
  (grid.getD y.toNat []).getD x.toNat false

/-- Pure reading of `collisionAt`. -/
def hit (g : Game) (y x : Int) : Bool :=
  get2 g.currentPiece y x &&
    (decide (g.pieceX + x < 0 ∨ g.pieceX + x ≥ boardWidth ∨ g.pieceY + y ≥ boardHeight) ||
      (decide (g.pieceY + y ≥ 0) && get2 g.board (g.pieceY + y) (g.pieceX + x)))

/-- Pure reading of `checkCollision`. -/
def collides (g : Game) : Bool :=
  (upto 5).any fun y => (upto 5).any (hit g y)

/-- Pure reading of `assignCell`. -/
def set2 (grid : Grid) (y x : Int) (v : Bool) : Grid :=
  grid.set y.toNat ((grid.getD y.toNat []).set x.toNat v)

/-- The row of ten empty cells that `clearLines` leaves at the top. -/
def emptyRow : List Bool := List.replicate 10 false

/-- A full row: every cell of it is occupied. -/
def fullRow (row : List Bool) : Bool := row.all id

/-- Number of full rows among `rows`. -/
def countFull (rows : Grid) : Nat := rows.countP fullRow

/-- The simpler line-clear algorithm of the design notes: mark all full rows, remove them
in one compaction that keeps the remaining rows in order, pad the top with empty rows. -/
def compactOnce (board : Grid) : Grid :=
  let kept := board.filter fun row => !fullRow row
  List.replicate (board.length - kept.length) emptyRow ++ kept

/-- Pure reading of `mergeAt`. -/
def mergeCell (g : Game) (y x : Int) (board : Grid) : Grid :=
  if get2 g.currentPiece y x = true ∧ g.pieceY + y ≥ 0 ∧ g.pieceY + y < boardHeight ∧
      g.pieceX + x ≥ 0 ∧ g.pieceX + x < boardWidth then
    set2 board (g.pieceY + y) (g.pieceX + x) true
  else board

/-- Pure reading of the board that `mergePiece` leaves. -/
def mergedBoard (g : Game) : Grid :=
  (upto 5).foldl (fun b y => (upto 5).foldl (fun b1 x => mergeCell g y x b1) b) g.board

/-- The 5x5 mask of catalog shape `pick`: cell `(row, col)` is occupied exactly when the
shape has `X` at that position. -/
def shapeMask (pick : Fin 7) : Grid :=
  (tetrominoes.getD pick.val []).map fun line => line.toList.map fun ch => ch == 'X'

/-- The state in which `spawnPiece` tests for a collision: shape `pick` at `(3, 0)`. -/
def spawned (g : Game) (pick : Fin 7) : Game :=
  { g with currentPiece := shapeMask pick, pieceX := 3, pieceY := 0 }

/-- Pure reading of `rotatedMask`: cell `(y, x)` of the result is cell `(4 - x, y)` of `mask`. -/
def rotP (mask : Grid) : Grid :=
  (upto 5).map fun y => (upto 5).map fun x => get2 mask (4 - x) y

/-- Pure reading of the loops of `rotatedMask`, write by write. -/
def rotFold (mask : Grid) : Grid :=
  (upto 5).foldl
    (fun r y => (upto 5).foldl (fun r1 x => set2 r1 y x (get2 mask (4 - x) y)) r)
    (List.replicate 5 (List.replicate 5 false))

/-- Pure reading of the state after `mergePiece` and `clearLines`. -/
def locked (g : Game) : Game :=
  { g with
    board := compactOnce (mergedBoard g)
    score := g.score + 100 * (countFull (mergedBoard g) : Int) }

/-- The state in which `moveDown` tests for a collision: the piece one row lower. -/
def stepped (g : Game) : Game :=
  { g with pieceY := g.pieceY + 1 }

/-! ## Example states -/

/-- The board of `NewGame`. -/
def emptyBoard : Grid := List.replicate 20 emptyRow

/-- A row with all ten cells occupied. -/
def solidRow : List Bool := List.replicate 10 true

/-- Columns 4 and 5 occupied from row 4 down to the floor: what eight `O` pieces leave
when each is dropped straight down from the spawn position. -/
def towerBoard : Grid :=
  List.replicate 4 emptyRow ++
    List.replicate 16 [false, false, false, false, true, true, false, false, false, false]

/-- A ninth `O` piece just spawned above the tower. -/
def towerGame : Game :=
  { board := towerBoard, currentPiece := shapeMask 1, pieceX := 3, pieceY := 0, score := 0 }

/-- Bottom four rows, counted from the bottom: full, full, empty, full. -/
def cascadeBoard : Grid :=
  List.replicate 16 emptyRow ++ [solidRow, emptyRow, solidRow, solidRow]

/-- A game on `cascadeBoard`. -/
def cascadeGame : Game :=
  { board := cascadeBoard, currentPiece := shapeMask 1, pieceX := 3, pieceY := 0, score := 0 }

/-- The two bottom rows are occupied except for columns 4 and 5. -/
def gapBoard : Grid :=
  List.replicate 18 emptyRow ++
    List.replicate 2 [true, true, true, true, false, false, true, true, true, true]

/-- An `O` piece resting in the gap of `gapBoard`: its cells are at rows 18 and 19. -/
def gapGame : Game :=
  { board := gapBoard, currentPiece := shapeMask 1, pieceX := 3, pieceY := 16, score := 0 }

/-- Only cell `(x, y) = (4, 2)` is occupied; every catalog shape placed at `(3, 0)` covers it. -/
def blockedBoard : Grid :=
  List.replicate 2 emptyRow ++
    [[false, false, false, false, true, false, false, false, false, false]] ++
    List.replicate 17 emptyRow

/-- A game on `blockedBoard`, before any spawn. -/
def blockedGame : Game :=
  { board := blockedBoard, currentPiece := [], pieceX := 0, pieceY := 0, score := 0 }

/-- A `T` piece in the middle of the empty board. -/
def freeGame : Game :=
  { board := emptyBoard, currentPiece := shapeMask 2, pieceX := 3, pieceY := 5, score := 0 }

/-- An `I` piece against the left wall of the empty board. -/
def wallGame : Game :=
  { board := emptyBoard, currentPiece := shapeMask 0, pieceX := 0, pieceY := 5, score := 0 }

/-- The state in which `rotate` tests for a collision: the rotated mask at the same place. -/
def rotated (g : Game) : Game :=
  { g with currentPiece := rotP g.currentPiece }

/-- A call of `rotate` in state `g` is accepted: it returns from the test
`checkCollision` on the rotated mask with `false`. -/
def rotationAccepted (g : Game) : Prop :=
  (rotatedMask g.currentPiece >>= fun r => checkCollision { g with currentPiece := r })
    = .ok false

instance (g : Game) : Decidable (rotationAccepted g) := by
  unfold rotationAccepted; infer_instance

/-- An upright `I` piece in column 0 of the empty board (mask column 2, `pieceX = -2`). -/
def uprightGame : Game :=
  { board := emptyBoard, currentPiece := rotP (shapeMask 0), pieceX := -2, pieceY := 5,
    score := 0 }

/-- The character of catalog shape `pick` at row `row`, column `col`. -/
def catalogChar (pick : Fin 7) (row col : Fin 5) : Char :=
  (((tetrominoes.getD pick.val []).getD row.val "").toList).getD col.val ' '

/-- Mask cell `(r, c)` is occupied and maps onto board cell `(x, y)`. -/
def covers (g : Game) (r c y x : Int) : Bool :=
  get2 g.currentPiece r c && decide (g.pieceY + r = y ∧ g.pieceX + c = x)

/-- An `O` piece hanging over the lower right corner of the empty board: of its four cells
only the one at `(x, y) = (9, 19)` lies on the board. -/
def edgeGame : Game :=
  { board := emptyBoard, currentPiece := shapeMask 1, pieceX := 8, pieceY := 17, score := 0 }

/-! ## Sequences of calls -/

/-- A call of one of the four methods that the game loop invokes on the game; `down`
carries the shape drawn if the piece locks. -/
inductive Move where
  | left
  | right
  | rotate
  | down (pick : Fin 7)
deriving DecidableEq, Repr

/-- The call `m` on state `g`: the state afterwards and the value returned by `moveDown`
(`true` for the three methods without a result). -/
def applyMove (g : Game) : Move → Run (Game × Bool)
  | .left => do
    let g1 ← moveLeft g
    pure (g1, true)
  | .right => do
    let g1 ← moveRight g
    pure (g1, true)
  | .rotate => do
    let g1 ← rotate g
    pure (g1, true)
  | .down pick => moveDown g pick

/-- The calls `ms` one after the other: the final state, and whether every `moveDown`
among them returned `true`. -/
def play (g : Game) : List Move → Run (Game × Bool)
  | [] => pure (g, true)
  | m :: ms => do
    let (g1, a) ← applyMove g m
    let (g2, b) ← play g1 ms
    pure (g2, a && b)

/-- The first two statements of `main` on the game: `NewGame()` and `spawnPiece()` with
shape `pick`. -/
def start (pick : Fin 7) : Run (Game × Bool) :=
  spawnPiece NewGame pick

/-- Coordinates `(x, y)` of the occupied cells of a grid, row by row. -/
def occupiedCells (grid : Grid) : List (Int × Int) :=
  (upto grid.length).flatMap fun y =>
    (upto (grid.getD y.toNat []).length).filterMap fun x =>
      if get2 grid y x then some (x, y) else none

/-- Board coordinates `(x, y)` of the blocks of the active piece. -/
def pieceCells (g : Game) : List (Int × Int) :=
  (occupiedCells g.currentPiece).map fun p => (g.pieceX + p.1, g.pieceY + p.2)

/-- Number of occupied cells of a mask. -/
def cellCount (mask : Grid) : Nat :=
  (mask.map fun row => (row.map Bool.toNat).sum).sum

/-- The state `k` rows below `g`: what `k` calls of `moveDown` without a lock leave. -/
def dropped (g : Game) (k : Nat) : Game :=
  { g with pieceY := g.pieceY + k }

/-- The `O` piece (catalog index 1) just spawned on the board of `NewGame`. -/
def freshO : Game := spawned NewGame 1

/-- The method `rotate` called `n` times in a row. -/
def rotateTimes : Nat → Game → Run Game
  | 0, g => pure g
  | n + 1, g => do
    let g1 ← rotate g
    rotateTimes n g1

/-- Number of `X` characters in a catalog shape. -/
def countX (shape : List String) : Nat :=
  (shape.map fun line => line.toList.count 'X').sum

/-- The loop `clearLoop` with a log: one entry for every execution of the loop body, the
value of `y` there and whether the clear branch ran. -/
def clearLoopLog : Nat → Game → Int → Run (Game × List (Int × Bool))
  | 0, _, _ => .error .fuelExhausted
  | fuel + 1, g, y =>
    if y ≥ 0 then do
      let full ← rowIsFull g.board y (upto boardWidth)
      if full then
        let g1 := { g with score := g.score + 100 }
        let b1 ← shiftDown g1.board y.toNat
        let b2 ← clearTop b1
        let (g2, log) ← clearLoopLog fuel { g1 with board := b2 } (y + 1 - 1)
        pure (g2, (y, true) :: log)
      else do
        let (g2, log) ← clearLoopLog fuel g (y - 1)
        pure (g2, (y, false) :: log)
    else pure (g, [])

/-- Mask row `r` has an occupied cell. -/
def rowHas (g : Game) (r : Int) : Bool :=
  (upto 5).any fun c => get2 g.currentPiece r c

/-- The states in which the engine is between two calls of the game loop: a 20x10 board
without a full row, a 5x5 mask of four cells, and a score that is a multiple of 100. -/
def Playable (g : Game) : Prop :=
  isBoard g.board ∧ isMask g.currentPiece ∧ cellCount g.currentPiece = 4 ∧
    countFull g.board = 0 ∧ ∃ n : Nat, g.score = 100 * (n : Int)

/-- A line-completing game: two `I` pieces laid side by side on the floor in columns 0..7
and an `O` piece brought above columns 8 and 9, one `moveDown` before it locks. -/
def lineMoves : List Move :=
  List.replicate 3 Move.left ++ List.replicate 18 (Move.down 0) ++
    [Move.right] ++ List.replicate 18 (Move.down 1) ++
    List.replicate 4 Move.right ++ List.replicate 16 (Move.down 0)

/-- The 20x10 board with the piece laid over it: cell `(x, y)` is occupied exactly when it
is occupied on the board of `g` or an occupied mask cell of `g` maps onto it.  Written
from this description, without reference to `mergePiece`. -/
def overlaid (g : Game) : Grid :=
  (upto 20).map fun y => (upto 10).map fun x =>
    get2 g.board y x || (upto 5).any fun r => (upto 5).any fun c => covers g r c y x

/-! # Theorems -/

/-! ## Lemmas on the slice primitives -/

theorem mem_upto (n : Nat) (i : Int) : i ∈ upto n ↔ 0 ≤ i ∧ i < n := by
  unfold upto
  simp only [List.mem_map, List.mem_range]
  constructor
  · rintro ⟨k, hk, rfl⟩
    exact ⟨Int.ofNat_nonneg k, Int.ofNat_lt.mpr hk⟩
  · rintro ⟨h0, h1⟩
    refine ⟨i.toNat, ?_, ?_⟩
    · omega
    · simp [Int.toNat_of_nonneg h0]

theorem index_ok {α : Type} (xs : List α) (i : Int) (d : α) (h0 : 0 ≤ i)
    (h1 : i < xs.length) : index xs i = .ok (xs.getD i.toNat d) := by
  have hlt : i.toNat < xs.length := by omega
  simp [index, h0, List.getElem?_eq_getElem hlt, List.getD_eq_getElem _ _ hlt]

theorem index_eq_ok {α : Type} (xs : List α) (i : Int) (v : α)
    (h : index xs i = .ok v) : 0 ≤ i ∧ i < xs.length ∧ xs[i.toNat]? = some v := by
  unfold index at h
  split at h
  · rename_i h0
    split at h
    · rename_i w hw
      cases h
      have := (List.getElem?_eq_some_iff.mp hw).1
      exact ⟨h0, by omega, hw⟩
    · cases h
  · cases h

theorem hasShape_row {rows cols : Nat} {grid : Grid} (h : hasShape rows cols grid)
    (y : Int) (h0 : 0 ≤ y) (h1 : y < rows) : (grid.getD y.toNat []).length = cols := by
  have hlt : y.toNat < grid.length := by rw [h.1]; omega
  rw [List.getD_eq_getElem _ _ hlt]
  exact h.2 _ (List.getElem_mem hlt)

theorem cellAt_ok {rows cols : Nat} {grid : Grid} (h : hasShape rows cols grid)
    (y x : Int) (hy0 : 0 ≤ y) (hy1 : y < rows) (hx0 : 0 ≤ x) (hx1 : x < cols) :
    cellAt grid y x = .ok (get2 grid y x) := by
  unfold cellAt get2
  rw [index_ok grid y [] hy0 (by rw [h.1]; exact hy1)]
  have hr := hasShape_row h y hy0 hy1
  show index (grid.getD y.toNat []) x = _
  rw [index_ok _ x false hx0 (by rw [hr]; exact hx1)]

/-! ## Collision detection -/

theorem collisionAt_ok (g : Game) (hb : isBoard g.board) (hm : isMask g.currentPiece)
    (y x : Int) (hy : y ∈ upto 5) (hx : x ∈ upto 5) :
    collisionAt g y x = .ok (hit g y x) := by
  rw [mem_upto] at hy hx
  unfold collisionAt hit
  rw [cellAt_ok hm y x hy.1 (by exact_mod_cast hy.2) hx.1 (by exact_mod_cast hx.2)]
  show (if get2 g.currentPiece y x = true then _ else _) = _
  cases hc : get2 g.currentPiece y x
  · rfl
  · simp only [if_true, Bool.true_and]
    by_cases hout : g.pieceX + x < 0 ∨ g.pieceX + x ≥ boardWidth ∨ g.pieceY + y ≥ boardHeight
    · simp [hout]; rfl
    · rw [if_neg hout]
      by_cases hy0 : g.pieceY + y ≥ 0
      · rw [if_pos hy0, decide_eq_false hout, decide_eq_true hy0]
        simp only [boardWidth, boardHeight, not_or, not_lt, ge_iff_le, not_le] at hout
        rw [cellAt_ok hb _ _ hy0 (by exact_mod_cast hout.2.2) hout.1
          (by exact_mod_cast hout.2.1)]
        rfl
      · rw [if_neg hy0]
        simp [hout, hy0]; rfl

theorem collisionRow_ok (g : Game) (y : Int) (xs : List Int)
    (h : ∀ x ∈ xs, collisionAt g y x = .ok (hit g y x)) :
    collisionRow g y xs = .ok (xs.any (hit g y)) := by
  induction xs with
  | nil => rfl
  | cons x xs ih =>
    have hx := h x (List.mem_cons_self x xs)
    have ih1 := ih (fun z hz => h z (List.mem_cons_of_mem x hz))
    unfold collisionRow
    rw [hx]
    show (if hit g y x = true then _ else _) = _
    cases hh : hit g y x
    · simpa [hh] using ih1
    · simp [hh]; rfl

theorem collisionRows_ok (g : Game) (ys : List Int)
    (h : ∀ y ∈ ys, collisionRow g y (upto 5) = .ok ((upto 5).any (hit g y))) :
    collisionRows g ys = .ok (ys.any fun y => (upto 5).any (hit g y)) := by
  induction ys with
  | nil => rfl
  | cons y ys ih =>
    have hy := h y (List.mem_cons_self y ys)
    have ih1 := ih (fun z hz => h z (List.mem_cons_of_mem y hz))
    unfold collisionRows
    rw [hy]
    show (if (upto 5).any (hit g y) = true then _ else _) = _
    cases hh : (upto 5).any (hit g y)
    · simpa [hh] using ih1
    · simp [hh]; rfl

theorem checkCollision_ok (g : Game) (hb : isBoard g.board) (hm : isMask g.currentPiece) :
    checkCollision g = .ok (collides g) := by
  unfold checkCollision collides
  apply collisionRows_ok
  intro y hy
  apply collisionRow_ok
  intro x hx
  exact collisionAt_ok g hb hm y x hy hx

theorem cellAt_true_iff {rows cols : Nat} {grid : Grid} (h : hasShape rows cols grid)
    (y x : Int) (hy0 : 0 ≤ y) (hy1 : y < rows) (hx0 : 0 ≤ x) (hx1 : x < cols) :
    cellAt grid y x = .ok true ↔ get2 grid y x = true := by
  rw [cellAt_ok h y x hy0 hy1 hx0 hx1]
  constructor
  · intro e; exact (Except.ok.inj e)
  · intro e; rw [e]

theorem collides_iff (g : Game) (hb : isBoard g.board) (hm : isMask g.currentPiece) :
    collides g = true ↔
      ∃ r c : Int, 0 ≤ r ∧ r < 5 ∧ 0 ≤ c ∧ c < 5 ∧ cellAt g.currentPiece r c = .ok true ∧
        (g.pieceX + c < 0 ∨ g.pieceX + c ≥ 10 ∨ g.pieceY + r ≥ 20 ∨
          (g.pieceY + r ≥ 0 ∧ cellAt g.board (g.pieceY + r) (g.pieceX + c) = .ok true)) := by
  unfold collides
  simp only [List.any_eq_true, mem_upto]
  constructor
  · rintro ⟨r, ⟨hr0, hr1⟩, c, ⟨hc0, hc1⟩, hh⟩
    refine ⟨r, c, hr0, by exact_mod_cast hr1, hc0, by exact_mod_cast hc1, ?_⟩
    simp only [hit, boardWidth, boardHeight, Bool.and_eq_true, Bool.or_eq_true,
      decide_eq_true_eq] at hh
    refine ⟨(cellAt_true_iff hm r c hr0 hr1 hc0 hc1).mpr hh.1, ?_⟩
    rcases hh.2 with h | ⟨h1, h2⟩
    · rcases h with h | h | h
      · exact Or.inl h
      · exact Or.inr (Or.inl h)
      · exact Or.inr (Or.inr (Or.inl h))
    · by_cases hx0 : g.pieceX + c < 0
      · exact Or.inl hx0
      · by_cases hx1 : g.pieceX + c ≥ 10
        · exact Or.inr (Or.inl hx1)
        · by_cases hy1 : g.pieceY + r ≥ 20
          · exact Or.inr (Or.inr (Or.inl hy1))
          · refine Or.inr (Or.inr (Or.inr ⟨h1, ?_⟩))
            exact (cellAt_true_iff hb _ _ h1 (by push_cast; omega) (by omega)
              (by push_cast; omega)).mpr h2
  · rintro ⟨r, c, hr0, hr1, hc0, hc1, hm1, hd⟩
    refine ⟨r, ⟨hr0, by exact_mod_cast hr1⟩, c, ⟨hc0, by exact_mod_cast hc1⟩, ?_⟩
    simp only [hit, boardWidth, boardHeight, Bool.and_eq_true, Bool.or_eq_true,
      decide_eq_true_eq]
    refine ⟨(cellAt_true_iff hm r c hr0 (by exact_mod_cast hr1) hc0
      (by exact_mod_cast hc1)).mp hm1, ?_⟩
    by_cases hx0 : g.pieceX + c < 0
    · exact Or.inl (Or.inl hx0)
    · by_cases hx1 : g.pieceX + c ≥ 10
      · exact Or.inl (Or.inr (Or.inl hx1))
      · by_cases hy1 : g.pieceY + r ≥ 20
        · exact Or.inl (Or.inr (Or.inr hy1))
        · rcases hd with h | h | h | ⟨h1, h2⟩
          · exact absurd h hx0
          · exact absurd h hx1
          · exact absurd h hy1
          · refine Or.inr ⟨h1, ?_⟩
            exact (cellAt_true_iff hb _ _ h1 (by push_cast; omega) (by omega)
              (by push_cast; omega)).mp h2

/-! ## Loops that run to completion -/

theorem foldlM_ok {σ : Type} (P : σ → Prop) (f : σ → Int → Run σ) (fp : σ → Int → σ)
    (xs : List Int) (h : ∀ s x, x ∈ xs → P s → f s x = .ok (fp s x) ∧ P (fp s x))
    (s : σ) (hs : P s) :
    xs.foldlM f s = .ok (xs.foldl fp s) ∧ P (xs.foldl fp s) := by
  induction xs generalizing s with
  | nil => exact ⟨rfl, hs⟩
  | cons x xs ih =>
    have hx := h s x (List.mem_cons_self x xs) hs
    have ih1 := ih (fun s1 z hz hs1 => h s1 z (List.mem_cons_of_mem x hz) hs1) (fp s x) hx.2
    rw [List.foldlM_cons, hx.1]
    exact ih1

theorem hasShape_set {rows cols : Nat} {grid : Grid} (h : hasShape rows cols grid)
    (i : Nat) (row : List Bool) (hrow : row.length = cols) :
    hasShape rows cols (grid.set i row) := by
  refine ⟨by rw [List.length_set]; exact h.1, ?_⟩
  intro r hr
  rcases List.mem_or_eq_of_mem_set hr with h1 | h1
  · exact h.2 r h1
  · rw [h1]; exact hrow

theorem assignCell_ok {rows cols : Nat} {grid : Grid} (h : hasShape rows cols grid)
    (y x : Int) (v : Bool) (hy0 : 0 ≤ y) (hy1 : y < rows) (hx0 : 0 ≤ x) (hx1 : x < cols) :
    assignCell grid y x v = .ok (set2 grid y x v) ∧ hasShape rows cols (set2 grid y x v) := by
  have hr := hasShape_row h y hy0 hy1
  constructor
  · unfold assignCell set2
    rw [index_ok grid y [] hy0 (by rw [h.1]; exact hy1)]
    show (assign (grid.getD y.toNat []) x v >>= fun row1 => assign grid y row1) = _
    have h1 : assign (grid.getD y.toNat []) x v
        = .ok ((grid.getD y.toNat []).set x.toNat v) := by
      unfold assign
      rw [if_pos ⟨hx0, by rw [hr]; exact hx1⟩]
    rw [h1]
    show assign grid y _ = _
    unfold assign
    rw [if_pos ⟨hy0, by rw [h.1]; exact hy1⟩]
  · exact hasShape_set h _ _ (by rw [List.length_set]; exact hr)

/-! ## Merging the piece -/

theorem mergeAt_ok (g : Game) (hm : isMask g.currentPiece) (y x : Int)
    (hy : y ∈ upto 5) (hx : x ∈ upto 5) (board : Grid) (hb : isBoard board) :
    mergeAt g y x board = .ok (mergeCell g y x board) ∧ isBoard (mergeCell g y x board) := by
  rw [mem_upto] at hy hx
  unfold mergeAt mergeCell
  rw [cellAt_ok hm y x hy.1 (by exact_mod_cast hy.2) hx.1 (by exact_mod_cast hx.2)]
  show (if get2 g.currentPiece y x = true then _ else _) = _ ∧ _
  cases hc : get2 g.currentPiece y x
  · simp only [Bool.false_eq_true, if_false, false_and]
    exact ⟨rfl, hb⟩
  · simp only [if_true, true_and]
    by_cases hin : g.pieceY + y ≥ 0 ∧ g.pieceY + y < boardHeight ∧
        g.pieceX + x ≥ 0 ∧ g.pieceX + x < boardWidth
    · rw [if_pos hin, if_pos hin]
      exact assignCell_ok hb _ _ true hin.1 hin.2.1 hin.2.2.1 hin.2.2.2
    · rw [if_neg hin, if_neg hin]
      exact ⟨rfl, hb⟩

theorem mergePiece_ok (g : Game) (hb : isBoard g.board) (hm : isMask g.currentPiece) :
    mergePiece g = .ok { g with board := mergedBoard g } ∧ isBoard (mergedBoard g) := by
  have key := foldlM_ok isBoard
    (fun b y => (upto 5).foldlM (fun b1 x => mergeAt g y x b1) b)
    (fun b y => (upto 5).foldl (fun b1 x => mergeCell g y x b1) b) (upto 5)
    (fun b y hy hb1 => foldlM_ok isBoard (fun b1 x => mergeAt g y x b1)
      (fun b1 x => mergeCell g y x b1) (upto 5)
      (fun b1 x hx hb2 => mergeAt_ok g hm y x hy hx b1 hb2) b hb1)
    g.board hb
  refine ⟨?_, key.2⟩
  unfold mergePiece
  rw [key.1]
  rfl

/-! ## Clearing lines -/

theorem rowIsFull_ok (board : Grid) (y : Int) (xs : List Int)
    (h : ∀ x ∈ xs, cellAt board y x = .ok (get2 board y x)) :
    rowIsFull board y xs = .ok (xs.all (get2 board y)) := by
  induction xs with
  | nil => rfl
  | cons x xs ih =>
    have hx := h x (List.mem_cons_self x xs)
    have ih1 := ih (fun z hz => h z (List.mem_cons_of_mem x hz))
    unfold rowIsFull
    rw [hx]
    show (if (!get2 board y x) = true then _ else _) = _
    cases hh : get2 board y x
    · simp only [List.all_cons, hh, Bool.not_false, if_true, Bool.false_and]
      rfl
    · simpa [hh] using ih1

theorem length_ten (row : List Bool) (h : row.length = 10) :
    ∃ a0 a1 a2 a3 a4 a5 a6 a7 a8 a9, row = [a0, a1, a2, a3, a4, a5, a6, a7, a8, a9] := by
  match row, h with
  | [a0, a1, a2, a3, a4, a5, a6, a7, a8, a9], _ =>
    exact ⟨a0, a1, a2, a3, a4, a5, a6, a7, a8, a9, rfl⟩

theorem all_upto_ten (row : List Bool) (h : row.length = 10) :
    (upto 10).all (fun x => row.getD x.toNat false) = fullRow row := by
  obtain ⟨a0, a1, a2, a3, a4, a5, a6, a7, a8, a9, rfl⟩ := length_ten row h
  rfl

theorem rowIsFull_row (board : Grid) (hb : isBoard board) (y : Int) (hy0 : 0 ≤ y)
    (hy1 : y < 20) :
    rowIsFull board y (upto boardWidth) = .ok (fullRow (board.getD y.toNat [])) := by
  show rowIsFull board y (upto 10) = _
  rw [rowIsFull_ok board y (upto 10)]
  · have := all_upto_ten (board.getD y.toNat []) (hasShape_row hb y hy0 (by exact_mod_cast hy1))
    rw [← this]; rfl
  · intro x hx
    rw [mem_upto] at hx
    exact cellAt_ok hb y x hy0 (by exact_mod_cast hy1) hx.1 (by exact_mod_cast hx.2)

theorem copySlice_same (dst src : List Bool) (h : dst.length = src.length) :
    copySlice dst src = src := by
  unfold copySlice
  rw [h, List.take_length, List.drop_eq_nil_of_le (le_of_eq h), List.append_nil]

theorem shiftDown_ok (cols : Nat) (m : Nat) :
    ∀ board : Grid, m < board.length → (∀ row ∈ board, row.length = cols) →
      shiftDown board m = .ok (board.take 1 ++ board.take m ++ board.drop (m + 1)) := by
  induction m with
  | zero =>
    intro board hlen _
    show Except.ok board = _
    cases board with
    | nil => simp at hlen
    | cons a t => simp
  | succ m ih =>
    intro board hlen hrows
    have hm : m < board.length := by omega
    unfold shiftDown
    have e1 : index board ((m + 1 : Nat) : Int) = .ok (board.getD (m + 1) []) := by
      have := index_ok board ((m + 1 : Nat) : Int) [] (by omega) (by exact_mod_cast hlen)
      simpa using this
    have e2 : index board (((m + 1 : Nat) : Int) - 1) = .ok (board.getD m []) := by
      have := index_ok board (((m + 1 : Nat) : Int) - 1) [] (by omega) (by omega)
      simpa using this
    rw [e1, e2]
    show (assign board ((m + 1 : Nat) : Int) _ >>= fun board1 => shiftDown board1 m) = _
    have hsame : copySlice (board.getD (m + 1) []) (board.getD m []) = board.getD m [] := by
      apply copySlice_same
      rw [List.getD_eq_getElem _ _ hlen, List.getD_eq_getElem _ _ hm,
        hrows _ (List.getElem_mem hlen), hrows _ (List.getElem_mem hm)]
    have e3 : assign board ((m + 1 : Nat) : Int)
        (copySlice (board.getD (m + 1) []) (board.getD m []))
        = .ok (board.set (m + 1) (board.getD m [])) := by
      unfold assign
      rw [if_pos ⟨by omega, by exact_mod_cast hlen⟩, hsame]
      simp
    rw [e3]
    show shiftDown (board.set (m + 1) (board.getD m [])) m = _
    rw [ih _ (by rw [List.length_set]; exact hm)]
    · rw [List.getD_eq_getElem _ _ hm]
      have t1 : (board.set (m + 1) board[m]).take 1 = board.take 1 := by
        cases board with
        | nil => simp at hlen
        | cons a t => simp
      have t2 : (board.set (m + 1) board[m]).take m = board.take m :=
        List.take_set_of_lt _ _ (by omega)
      have t3 : (board.set (m + 1) board[m]).drop (m + 1) = board[m] :: board.drop (m + 2) := by
        rw [List.drop_set]
        simp only [lt_self_iff_false, if_false, Nat.sub_self]
        rw [List.drop_eq_getElem_cons hlen, List.set_cons_zero]
      have t4 : board.take (m + 1) = board.take m ++ [board[m]] := by
        rw [List.take_succ, List.getElem?_eq_getElem hm]; rfl
      rw [t1, t2, t3, t4]
      simp only [List.append_assoc, List.cons_append, List.nil_append]
    · intro row hrow
      rcases List.mem_or_eq_of_mem_set hrow with h1 | h1
      · exact hrows row h1
      · rw [h1, List.getD_eq_getElem _ _ hm]
        exact hrows _ (List.getElem_mem hm)

theorem assignCell_head (r : List Bool) (rest : Grid) (x : Int) (v : Bool)
    (hx0 : 0 ≤ x) (hx1 : x < r.length) :
    assignCell (r :: rest) 0 x v = .ok (r.set x.toNat v :: rest) := by
  unfold assignCell
  have e1 : index (r :: rest) 0 = .ok r := by simp [index]
  rw [e1]
  show (assign r x v >>= fun row1 => assign (r :: rest) 0 row1) = _
  have e2 : assign r x v = .ok (r.set x.toNat v) := by
    unfold assign
    rw [if_pos ⟨hx0, hx1⟩]
  rw [e2]
  show assign (r :: rest) 0 _ = _
  unfold assign
  rw [if_pos ⟨le_refl 0, by rw [List.length_cons]; omega⟩]
  rfl

theorem clearTop_ok (r0 : List Bool) (rest : Grid) (h0 : r0.length = 10) :
    clearTop (r0 :: rest) = .ok (emptyRow :: rest) := by
  obtain ⟨a0, a1, a2, a3, a4, a5, a6, a7, a8, a9, rfl⟩ := length_ten r0 h0
  show (upto 10).foldlM (fun b x => assignCell b 0 x false) _ = _
  have key := foldlM_ok (fun b : Grid => ∃ r, r.length = 10 ∧ b = r :: rest)
    (fun b x => assignCell b 0 x false)
    (fun b x => (b.headD []).set x.toNat false :: b.tail) (upto 10)
    (by
      rintro b x hx ⟨r, hr, rfl⟩
      rw [mem_upto] at hx
      refine ⟨assignCell_head r rest x false hx.1 (by rw [hr]; exact hx.2), ?_⟩
      exact ⟨r.set x.toNat false, by rw [List.length_set]; exact hr, rfl⟩)
    ([a0, a1, a2, a3, a4, a5, a6, a7, a8, a9] :: rest) ⟨_, rfl, rfl⟩
  rw [key.1]
  rfl

theorem ok_bind {α β : Type} (a : α) (f : α → Run β) : (Except.ok a >>= f) = f a := rfl

theorem emptyRow_not_full : fullRow emptyRow = false := by decide

theorem getD_append_length {α : Type} (pre : List α) (a : α) (post : List α) (d : α) :
    (pre ++ a :: post).getD pre.length d = a := by
  induction pre with
  | nil => rfl
  | cons b pre ih => simpa using ih

theorem clearLoop_ok (fuel : Nat) : ∀ (pre post : Grid) (g : Game),
    g.board = pre ++ post → (pre ++ post).length = 20 →
    (∀ row ∈ pre ++ post, row.length = 10) → pre.length + countFull pre < fuel →
    clearLoop fuel g ((pre.length : Int) - 1) = .ok
      { g with
        board := List.replicate (countFull pre) emptyRow
          ++ pre.filter (fun row => !fullRow row) ++ post
        score := g.score + 100 * (countFull pre : Int) } := by
  induction fuel with
  | zero => intro pre post g _ _ _ hf; omega
  | succ fuel ih =>
    intro pre post g hg hlen hrows hf
    rcases List.eq_nil_or_concat pre with rfl | ⟨pre1, row, rfl⟩
    · unfold clearLoop
      rw [if_neg (by simp)]
      cases g
      simp only [List.nil_append] at hg
      simp [countFull, hg]
      rfl
    · rw [List.concat_eq_append] at hg hlen hrows hf ⊢
      have hb : isBoard g.board := by rw [hg]; exact ⟨hlen, hrows⟩
      have hy0 : (0 : Int) ≤ ((pre1 ++ [row]).length : Int) - 1 := by
        rw [List.length_append]; simp
      have hy1 : ((pre1 ++ [row]).length : Int) - 1 < 20 := by
        have : (pre1 ++ [row]).length ≤ 20 := by
          rw [← hlen, List.length_append (pre1 ++ [row])]; omega
        omega
      have hnat : (((pre1 ++ [row]).length : Int) - 1).toNat = pre1.length := by
        rw [List.length_append]; simp
      have hrow : g.board.getD pre1.length [] = row := by
        rw [hg, List.append_assoc]
        exact getD_append_length pre1 row post []
      have hcount : countFull (pre1 ++ [row]) = countFull pre1 + (if fullRow row then 1 else 0) := by
        unfold countFull
        rw [List.countP_append, List.countP_singleton]
      unfold clearLoop
      rw [if_pos hy0, rowIsFull_row g.board hb _ hy0 hy1, hnat, hrow, ok_bind]
      cases hfull : fullRow row
      · rw [if_neg (by simp)]
        have := ih pre1 (row :: post) g (by rw [hg]; simp) (by rw [← hlen]; simp)
          (by intro r hr; apply hrows; simpa using hr)
          (by rw [hcount, hfull] at hf; simp at hf; omega)
        have e : ((pre1 ++ [row]).length : Int) - 1 - 1 = (pre1.length : Int) - 1 := by
          rw [List.length_append]; simp
        rw [e, this, hcount, hfull]
        simp [List.filter_append, hfull]
      · rw [if_pos rfl]
        have hne : g.board = (g.board.headD []) :: (g.board.tail) := by
          rw [hg]; cases pre1 <;> rfl
        have hsd := shiftDown_ok 10 pre1.length g.board (by rw [hg]; simp)
          (by rw [hg]; exact hrows)
        have htake : g.board.take 1 ++ g.board.take pre1.length ++ g.board.drop (pre1.length + 1)
            = (g.board.headD []) :: (pre1 ++ post) := by
          rw [hg]
          have t1 : (pre1 ++ [row] ++ post).take pre1.length = pre1 := by
            rw [List.append_assoc, List.take_left]
          have t2 : (pre1 ++ [row] ++ post).drop (pre1.length + 1) = post := by
            apply List.drop_left'
            simp
          rw [t1, t2]
          cases pre1 <;> rfl
        rw [htake] at hsd
        show (shiftDown g.board pre1.length >>= _) = _
        rw [hsd, ok_bind]
        have h0 : (g.board.headD []).length = 10 := by
          apply hrows
          rw [← hg]
          rw [hne]; simp
        rw [clearTop_ok _ _ h0, ok_bind]
        have := ih (emptyRow :: pre1) post
          { board := emptyRow :: (pre1 ++ post), currentPiece := g.currentPiece,
            pieceX := g.pieceX, pieceY := g.pieceY, score := g.score + 100 }
          rfl (by
            rw [← hlen]
            simp only [List.length_cons, List.length_append, List.length_nil])
          (by
            intro r hr
            rcases List.mem_cons.mp hr with h1 | h1
            · rw [h1]; rfl
            · apply hrows
              rcases List.mem_append.mp h1 with h2 | h2
              · simp [h2]
              · simp [h2])
          (by
            rw [hcount, hfull] at hf
            simp only [countFull, List.countP_cons, emptyRow_not_full] at hf ⊢
            simp at hf ⊢
            omega)
        have e : ((pre1 ++ [row]).length : Int) - 1 + 1 - 1
            = (((emptyRow :: pre1).length : Nat) : Int) - 1 := by
          rw [List.length_append, List.length_cons]; simp
        rw [e]
        refine Eq.trans this ?_
        have c1 : countFull (emptyRow :: pre1) = countFull pre1 := by
          simp [countFull, List.countP_cons, emptyRow_not_full]
        rw [c1, hcount, hfull]
        simp [List.filter_append, hfull, List.filter_cons, emptyRow_not_full,
          List.replicate_succ']
        ring

theorem countFull_add_kept (rows : Grid) :
    countFull rows + (rows.filter fun row => !fullRow row).length = rows.length := by
  induction rows with
  | nil => rfl
  | cons r rows ih =>
    unfold countFull at ih ⊢
    cases h : fullRow r
    · simp [List.countP_cons, List.filter_cons, h]
      omega
    · simp [List.countP_cons, List.filter_cons, h]
      omega

theorem compactOnce_eq (board : Grid) :
    compactOnce board
      = List.replicate (countFull board) emptyRow ++ board.filter fun row => !fullRow row := by
  unfold compactOnce
  have := countFull_add_kept board
  have e : board.length - (board.filter fun row => !fullRow row).length = countFull board := by
    omega
  simp only [e]

theorem isBoard_compactOnce (board : Grid) (hb : isBoard board) :
    isBoard (compactOnce board) := by
  rw [compactOnce_eq]
  constructor
  · rw [List.length_append, List.length_replicate, countFull_add_kept, hb.1]
  · intro row hrow
    rcases List.mem_append.mp hrow with h | h
    · rw [(List.mem_replicate.mp h).2]; rfl
    · exact hb.2 row (List.mem_filter.mp h).1

theorem clearLoop_board (fuel : Nat) (hfuel : 41 ≤ fuel) (g : Game) (hb : isBoard g.board) :
    clearLoop fuel g (boardHeight - 1) = .ok
      { g with
        board := compactOnce g.board
        score := g.score + 100 * (countFull g.board : Int) } := by
  have hc : countFull g.board ≤ 20 := by
    have := countFull_add_kept g.board
    rw [hb.1] at this
    omega
  have key := clearLoop_ok fuel g.board [] g (by simp) (by simpa using hb.1)
    (by simpa using hb.2) (by rw [hb.1]; omega)
  rw [hb.1] at key
  rw [compactOnce_eq]
  simpa [boardHeight] using key

theorem clearLines_ok (g : Game) (hb : isBoard g.board) :
    clearLines g = .ok
      { g with
        board := compactOnce g.board
        score := g.score + 100 * (countFull g.board : Int) } :=
  clearLoop_board clearFuel (le_refl 41) g hb

/-! ## Spawning -/

theorem fillPiece_catalog : ∀ pick : Fin 7,
    (index tetrominoes (pick.val : Int) >>= fun shape => fillPiece shape (List.replicate 5 []))
      = .ok (shapeMask pick) := by
  decide

theorem isMask_shapeMask : ∀ pick : Fin 7, isMask (shapeMask pick) := by
  decide

theorem spawnPiece_ok (g : Game) (hb : isBoard g.board) (pick : Fin 7) :
    spawnPiece g pick = .ok (spawned g pick, !collides (spawned g pick)) := by
  unfold spawnPiece
  have h := fillPiece_catalog pick
  cases hi : index tetrominoes (pick.val : Int) with
  | error e => rw [hi] at h; cases h
  | ok shape =>
    rw [hi, ok_bind] at h
    rw [ok_bind, h, ok_bind]
    show (checkCollision (spawned g pick) >>= _) = _
    rw [checkCollision_ok (spawned g pick) hb (isMask_shapeMask pick), ok_bind]
    cases collides (spawned g pick) <;> rfl

/-! ## Rotation -/

theorem length_five {α : Type} (row : List α) (h : row.length = 5) :
    ∃ a0 a1 a2 a3 a4, row = [a0, a1, a2, a3, a4] := by
  match row, h with
  | [a0, a1, a2, a3, a4], _ => exact ⟨a0, a1, a2, a3, a4, rfl⟩

theorem isMask_cells (mask : Grid) (h : isMask mask) :
    ∃ a0 a1 a2 a3 a4 b0 b1 b2 b3 b4 c0 c1 c2 c3 c4 d0 d1 d2 d3 d4 e0 e1 e2 e3 e4,
      mask = [[a0, a1, a2, a3, a4], [b0, b1, b2, b3, b4], [c0, c1, c2, c3, c4],
        [d0, d1, d2, d3, d4], [e0, e1, e2, e3, e4]] := by
  obtain ⟨r0, r1, r2, r3, r4, rfl⟩ := length_five mask h.1
  obtain ⟨a0, a1, a2, a3, a4, rfl⟩ := length_five r0 (h.2 _ (by simp))
  obtain ⟨b0, b1, b2, b3, b4, rfl⟩ := length_five r1 (h.2 _ (by simp))
  obtain ⟨c0, c1, c2, c3, c4, rfl⟩ := length_five r2 (h.2 _ (by simp))
  obtain ⟨d0, d1, d2, d3, d4, rfl⟩ := length_five r3 (h.2 _ (by simp))
  obtain ⟨e0, e1, e2, e3, e4, rfl⟩ := length_five r4 (h.2 _ (by simp))
  exact ⟨a0, a1, a2, a3, a4, b0, b1, b2, b3, b4, c0, c1, c2, c3, c4, d0, d1, d2, d3, d4,
    e0, e1, e2, e3, e4, rfl⟩

theorem rotatedMask_fold (mask : Grid) (h : isMask mask) :
    rotatedMask mask = .ok (rotFold mask) := by
  have key := foldlM_ok isMask
    (fun r y => (upto 5).foldlM
      (fun r1 x => do
        let v ← cellAt mask (4 - x) y
        assignCell r1 y x v) r)
    (fun r y => (upto 5).foldl (fun r1 x => set2 r1 y x (get2 mask (4 - x) y)) r) (upto 5)
    (fun r y hy hr => foldlM_ok isMask
      (fun r1 x => do
        let v ← cellAt mask (4 - x) y
        assignCell r1 y x v)
      (fun r1 x => set2 r1 y x (get2 mask (4 - x) y)) (upto 5)
      (fun r1 x hx hr1 => by
        rw [mem_upto] at hx hy
        have hx5 : x < 5 := by exact_mod_cast hx.2
        have hy5 : y < 5 := by exact_mod_cast hy.2
        show (cellAt mask (4 - x) y >>= fun v => assignCell r1 y x v) = _ ∧ _
        rw [cellAt_ok h (4 - x) y (by omega) (by push_cast; omega) hy.1 hy.2, ok_bind]
        exact assignCell_ok hr1 y x _ hy.1 hy.2 hx.1 hx.2) r hr)
    (List.replicate 5 (List.replicate 5 false)) (by decide)
  exact key.1

theorem upto_five : upto 5 = [0, 1, 2, 3, 4] := rfl

theorem rotFold_eq (mask : Grid) (h : isMask mask) : rotFold mask = rotP mask := by
  obtain ⟨a0, a1, a2, a3, a4, b0, b1, b2, b3, b4, c0, c1, c2, c3, c4, d0, d1, d2, d3, d4,
    e0, e1, e2, e3, e4, rfl⟩ := isMask_cells mask h
  simp [rotFold, rotP, upto_five, set2, get2]

theorem rotatedMask_ok (mask : Grid) (h : isMask mask) :
    rotatedMask mask = .ok (rotP mask) := by
  rw [rotatedMask_fold mask h, rotFold_eq mask h]

theorem isMask_rotP (mask : Grid) : isMask (rotP mask) := by
  constructor
  · rfl
  · intro row hrow
    unfold rotP at hrow
    obtain ⟨y, _, rfl⟩ := List.mem_map.mp hrow
    rfl

theorem rotP_four (mask : Grid) (h : isMask mask) :
    rotP (rotP (rotP (rotP mask))) = mask := by
  obtain ⟨a0, a1, a2, a3, a4, b0, b1, b2, b3, b4, c0, c1, c2, c3, c4, d0, d1, d2, d3, d4,
    e0, e1, e2, e3, e4, rfl⟩ := isMask_cells mask h
  rfl

theorem rotate_ok (g : Game) (hb : isBoard g.board) (hm : isMask g.currentPiece) :
    rotate g = .ok
      (if collides { g with currentPiece := rotP g.currentPiece } then g
        else { g with currentPiece := rotP g.currentPiece }) := by
  unfold rotate
  rw [rotatedMask_ok _ hm, ok_bind]
  show (checkCollision { g with currentPiece := rotP g.currentPiece } >>= _) = _
  rw [checkCollision_ok { g with currentPiece := rotP g.currentPiece } hb (isMask_rotP _), ok_bind]
  cases collides { g with currentPiece := rotP g.currentPiece } <;> rfl

/-! ## Horizontal moves -/

theorem moveLeft_ok (g : Game) (hb : isBoard g.board) (hm : isMask g.currentPiece) :
    moveLeft g = .ok
      (if collides { g with pieceX := g.pieceX - 1 } then g
        else { g with pieceX := g.pieceX - 1 }) := by
  unfold moveLeft
  show (checkCollision { g with pieceX := g.pieceX - 1 } >>= _) = _
  rw [checkCollision_ok { g with pieceX := g.pieceX - 1 } hb hm, ok_bind]
  cases collides { g with pieceX := g.pieceX - 1 }
  · rfl
  · simp only [if_true]
    show Except.ok _ = _
    congr 1
    cases g
    simp

theorem moveRight_ok (g : Game) (hb : isBoard g.board) (hm : isMask g.currentPiece) :
    moveRight g = .ok
      (if collides { g with pieceX := g.pieceX + 1 } then g
        else { g with pieceX := g.pieceX + 1 }) := by
  unfold moveRight
  show (checkCollision { g with pieceX := g.pieceX + 1 } >>= _) = _
  rw [checkCollision_ok { g with pieceX := g.pieceX + 1 } hb hm, ok_bind]
  cases collides { g with pieceX := g.pieceX + 1 }
  · rfl
  · simp only [if_true]
    show Except.ok _ = _
    congr 1
    cases g
    simp

/-! ## Gravity step -/

theorem stepped_back (g : Game) :
    Game.mk g.board g.currentPiece g.pieceX (g.pieceY + 1 - 1) g.score = g := by
  cases g
  simp

theorem moveDown_ok (g : Game) (hb : isBoard g.board) (hm : isMask g.currentPiece)
    (pick : Fin 7) :
    moveDown g pick = .ok
      (if collides (stepped g) then
        (spawned (locked g) pick, !collides (spawned (locked g) pick))
      else (stepped g, true)) := by
  unfold moveDown
  show (checkCollision (stepped g) >>= _) = _
  rw [checkCollision_ok (stepped g) hb hm, ok_bind]
  cases collides (stepped g)
  · rfl
  · simp only [if_true]
    show (mergePiece (Game.mk g.board g.currentPiece g.pieceX (g.pieceY + 1 - 1) g.score)
      >>= _) = _
    rw [stepped_back, (mergePiece_ok g hb hm).1, ok_bind,
      clearLines_ok _ (mergePiece_ok g hb hm).2, ok_bind]
    show (spawnPiece (locked g) pick >>= _) = _
    rw [spawnPiece_ok (locked g) (isBoard_compactOnce _ (mergePiece_ok g hb hm).2) pick, ok_bind]
    cases collides (spawned (locked g) pick) <;> rfl

/-! ## Properties of the engine -/

/-- C1: on a 20x10 board with a 5x5 mask and any integer position, `checkCollision`
returns, and it returns `true` if and only if some occupied mask cell `(r, c)` maps to
`(bx, by) = (pieceX + c, pieceY + r)` with `bx < 0`, or `bx >= 10`, or `by >= 20`, or
`by >= 0` and `board[by][bx]` occupied.  A cell with `by < 0` can only collide through its
column. -/
theorem checkCollision_iff (g : Game) (hb : isBoard g.board) (hm : isMask g.currentPiece) :
    ∃ b, checkCollision g = .ok b ∧
      (b = true ↔
        ∃ r c : Int, 0 ≤ r ∧ r < 5 ∧ 0 ≤ c ∧ c < 5 ∧ cellAt g.currentPiece r c = .ok true ∧
          (g.pieceX + c < 0 ∨ g.pieceX + c ≥ 10 ∨ g.pieceY + r ≥ 20 ∨
            (g.pieceY + r ≥ 0 ∧
              cellAt g.board (g.pieceY + r) (g.pieceX + c) = .ok true))) :=
  ⟨collides g, checkCollision_ok g hb hm, collides_iff g hb hm⟩

theorem checkCollision_iff_witness :
    isBoard towerGame.board ∧ isMask towerGame.currentPiece ∧
      ∃ b, checkCollision towerGame = .ok b ∧
        (b = true ↔
          ∃ r c : Int, 0 ≤ r ∧ r < 5 ∧ 0 ≤ c ∧ c < 5 ∧
            cellAt towerGame.currentPiece r c = .ok true ∧
            (towerGame.pieceX + c < 0 ∨ towerGame.pieceX + c ≥ 10 ∨
              towerGame.pieceY + r ≥ 20 ∨
              (towerGame.pieceY + r ≥ 0 ∧
                cellAt towerGame.board (towerGame.pieceY + r) (towerGame.pieceX + c)
                  = .ok true))) :=
  ⟨by decide, by decide, checkCollision_iff towerGame (by decide) (by decide)⟩

/-- C2, as stated, is false: there is no 20x10 board (with or without non-adjacent full
rows) on which `clearLines` leaves a board other than the one of the mark-and-compact
algorithm `compactOnce`. -/
theorem clearLines_never_differs :
    ¬ ∃ g : Game, isBoard g.board ∧
        (clearLines g).map Game.board ≠ .ok (compactOnce g.board) := by
  rintro ⟨g, hb, hne⟩
  apply hne
  rw [clearLines_ok g hb]
  rfl

/-- C2, amended: on every 20x10 board `clearLines` returns and leaves exactly the board of
the simpler algorithm that marks all full rows, removes them in one compaction keeping the
other rows in order, and pads the top with empty rows. -/
theorem clearLines_eq_compactOnce (g : Game) (hb : isBoard g.board) :
    (clearLines g).map Game.board = .ok (compactOnce g.board) := by
  rw [clearLines_ok g hb]
  rfl

theorem clearLines_eq_compactOnce_witness :
    isBoard cascadeGame.board ∧
      (fullRow (cascadeGame.board.getD 16 []) = true ∧
        fullRow (cascadeGame.board.getD 17 []) = false ∧
        fullRow (cascadeGame.board.getD 18 []) = true) ∧
      (clearLines cascadeGame).map Game.board = .ok (compactOnce cascadeGame.board) :=
  ⟨by decide, by decide, clearLines_eq_compactOnce cascadeGame (by decide)⟩

/-- C3: on every 20x10 board `clearLines` returns a board on which the full-row test of
the code fails for each of the twenty rows, and the score has grown by 100 for each row
that was full; on the board whose bottom rows are full, full, empty, full (from the
bottom) three rows are cleared and only empty rows are left. -/
theorem clearLines_no_full_row :
    (∀ g : Game, isBoard g.board →
      ∃ g1, clearLines g = .ok g1 ∧
        (∀ y : Int, 0 ≤ y → y < 20 → rowIsFull g1.board y (upto boardWidth) = .ok false) ∧
        (∀ row ∈ g1.board, fullRow row = false) ∧
        g1.score = g.score + 100 * (countFull g.board : Int)) ∧
    countFull cascadeBoard = 3 ∧
    clearLines cascadeGame = .ok { cascadeGame with board := emptyBoard, score := 300 } := by
  refine ⟨?_, by decide, by decide⟩
  intro g hb
  refine ⟨_, clearLines_ok g hb, ?_, ?_, rfl⟩
  · have hrows : ∀ row ∈ compactOnce g.board, fullRow row = false := by
      intro row hrow
      rw [compactOnce_eq] at hrow
      rcases List.mem_append.mp hrow with h | h
      · rw [(List.mem_replicate.mp h).2]; exact emptyRow_not_full
      · simpa using (List.mem_filter.mp h).2
    intro y hy0 hy1
    have hcb := isBoard_compactOnce g.board hb
    rw [rowIsFull_row _ hcb y hy0 hy1]
    congr 1
    apply hrows
    have hlt : y.toNat < (compactOnce g.board).length := by rw [hcb.1]; omega
    rw [List.getD_eq_getElem _ _ hlt]
    exact List.getElem_mem hlt
  · intro row hrow
    change row ∈ compactOnce g.board at hrow
    rw [compactOnce_eq] at hrow
    rcases List.mem_append.mp hrow with h | h
    · rw [(List.mem_replicate.mp h).2]; exact emptyRow_not_full
    · simpa using (List.mem_filter.mp h).2

theorem clearLines_no_full_row_witness :
    isBoard cascadeGame.board ∧
      ∃ g1, clearLines cascadeGame = .ok g1 ∧
        (∀ y : Int, 0 ≤ y → y < 20 → rowIsFull g1.board y (upto boardWidth) = .ok false) ∧
        (∀ row ∈ g1.board, fullRow row = false) ∧
        g1.score = cascadeGame.score + 100 * (countFull cascadeGame.board : Int) :=
  ⟨by decide, clearLines_no_full_row.1 cascadeGame (by decide)⟩

/-- C5, the code at the failing input: in `towerGame` the next downward step locks the
piece and whatever shape is drawn collides at once.  A tick ends the loop with game over;
the arrow-down key produces the same game state but the loop keeps running, because
`main` drops the result of `moveDown` there. -/
theorem softDrop_misses_gameOver :
    ∀ pick : Fin 7, ∃ g1,
      loopStep towerGame .tick pick = .ok (g1, .gameOver) ∧
      loopStep towerGame (.key .arrowDown) pick = .ok (g1, .running) ∧
      checkCollision g1 = .ok true := by
  intro pick
  refine ⟨spawned (locked towerGame) pick, ?_, ?_, ?_⟩
  · revert pick; decide
  · revert pick; decide
  · revert pick; decide

theorem rotP_cell (mask : Grid) (hm : isMask mask) (y x : Int) (hy0 : 0 ≤ y) (hy1 : y < 5)
    (hx0 : 0 ≤ x) (hx1 : x < 5) :
    cellAt (rotP mask) y x = cellAt mask (4 - x) y := by
  rw [cellAt_ok (isMask_rotP mask) y x hy0 (by exact_mod_cast hy1) hx0 (by exact_mod_cast hx1),
    cellAt_ok hm (4 - x) y (by omega) (by push_cast; omega) hy0 (by exact_mod_cast hy1)]
  congr 1
  interval_cases y <;> interval_cases x <;> rfl

theorem rotationAccepted_iff (g : Game) (hb : isBoard g.board) (hm : isMask g.currentPiece) :
    rotationAccepted g ↔ collides (rotated g) = false := by
  unfold rotationAccepted
  rw [rotatedMask_ok _ hm, ok_bind]
  show checkCollision (rotated g) = _ ↔ _
  rw [checkCollision_ok (rotated g) hb (isMask_rotP _)]
  constructor
  · intro h; exact Except.ok.inj h
  · intro h; rw [h]

theorem rotate_total (g : Game) (hb : isBoard g.board) (hm : isMask g.currentPiece) :
    ∃ g1, rotate g = .ok g1 ∧ isBoard g1.board ∧ isMask g1.currentPiece ∧
      (rotationAccepted g → g1 = rotated g) := by
  rw [rotate_ok g hb hm]
  cases hc : collides { g with currentPiece := rotP g.currentPiece }
  · exact ⟨_, rfl, hb, isMask_rotP _, fun _ => rfl⟩
  · refine ⟨_, rfl, hb, hm, fun ha => ?_⟩
    have := (rotationAccepted_iff g hb hm).mp ha
    rw [show collides (rotated g) = true from hc] at this
    cases this

/-- C6: the mask transform of `rotate` is a function of the mask alone (`rotatedMask`), its
cell `(row, col)` is cell `(4 - col, row)` of the original, and on any 5x5 mask four
applications return the original mask; hence four consecutive accepted `rotate` calls
leave the mask they started from. -/
theorem rotate_four_times (m : Grid) (hm : isMask m) :
    (∃ m1 m2 m3, rotatedMask m = .ok m1 ∧ rotatedMask m1 = .ok m2 ∧
      rotatedMask m2 = .ok m3 ∧ rotatedMask m3 = .ok m ∧
      ∀ y x : Int, 0 ≤ y → y < 5 → 0 ≤ x → x < 5 → cellAt m1 y x = cellAt m (4 - x) y) ∧
    (∀ g : Game, isBoard g.board → g.currentPiece = m →
      ∃ g1 g2 g3 g4, rotate g = .ok g1 ∧ rotate g1 = .ok g2 ∧ rotate g2 = .ok g3 ∧
        rotate g3 = .ok g4 ∧
        (rotationAccepted g → rotationAccepted g1 → rotationAccepted g2 →
          rotationAccepted g3 → g4.currentPiece = m)) := by
  constructor
  · refine ⟨rotP m, rotP (rotP m), rotP (rotP (rotP m)), rotatedMask_ok m hm,
      rotatedMask_ok _ (isMask_rotP _), rotatedMask_ok _ (isMask_rotP _), ?_,
      fun y x hy0 hy1 hx0 hx1 => rotP_cell m hm y x hy0 hy1 hx0 hx1⟩
    rw [rotatedMask_ok _ (isMask_rotP _), rotP_four m hm]
  · intro g hb hg
    subst hg
    obtain ⟨g1, e1, hb1, hm1, a1⟩ := rotate_total g hb hm
    obtain ⟨g2, e2, hb2, hm2, a2⟩ := rotate_total g1 hb1 hm1
    obtain ⟨g3, e3, hb3, hm3, a3⟩ := rotate_total g2 hb2 hm2
    obtain ⟨g4, e4, _, _, a4⟩ := rotate_total g3 hb3 hm3
    refine ⟨g1, g2, g3, g4, e1, e2, e3, e4, ?_⟩
    intro h1 h2 h3 h4
    rw [a4 h4, a3 h3, a2 h2, a1 h1]
    exact rotP_four g.currentPiece hm

theorem rotate_four_times_witness :
    isMask (shapeMask 2) ∧
      ((∃ m1 m2 m3, rotatedMask (shapeMask 2) = .ok m1 ∧ rotatedMask m1 = .ok m2 ∧
        rotatedMask m2 = .ok m3 ∧ rotatedMask m3 = .ok (shapeMask 2) ∧
        ∀ y x : Int, 0 ≤ y → y < 5 → 0 ≤ x → x < 5 →
          cellAt m1 y x = cellAt (shapeMask 2) (4 - x) y) ∧
      (∀ g : Game, isBoard g.board → g.currentPiece = shapeMask 2 →
        ∃ g1 g2 g3 g4, rotate g = .ok g1 ∧ rotate g1 = .ok g2 ∧ rotate g2 = .ok g3 ∧
          rotate g3 = .ok g4 ∧
          (rotationAccepted g → rotationAccepted g1 → rotationAccepted g2 →
            rotationAccepted g3 → g4.currentPiece = shapeMask 2))) ∧
      (isBoard freeGame.board ∧ freeGame.currentPiece = shapeMask 2 ∧
        rotationAccepted freeGame ∧ rotationAccepted (rotated freeGame) ∧
        rotationAccepted (rotated (rotated freeGame)) ∧
        rotationAccepted (rotated (rotated (rotated freeGame)))) :=
  ⟨by decide, rotate_four_times (shapeMask 2) (by decide),
    by decide, rfl, by decide, by decide, by decide, by decide⟩

/-- C7: `rotate` returns and leaves `pieceX`, `pieceY`, the board and the score as they
were; with `r` the clockwise-rotated mask (`r[row][col] = mask[4-col][row]`) and `b` the
answer of `checkCollision` for `r` at the current position, the mask afterwards is `r`
when `b` is false and the mask from before the call when `b` is true, `b` being true
exactly when an occupied cell of `r` lies out of bounds or on an occupied board cell. -/
theorem rotate_frame (g : Game) (hb : isBoard g.board) (hm : isMask g.currentPiece) :
    ∃ r b g1, rotatedMask g.currentPiece = .ok r ∧
      (∀ y x : Int, 0 ≤ y → y < 5 → 0 ≤ x → x < 5 →
        cellAt r y x = cellAt g.currentPiece (4 - x) y) ∧
      checkCollision { g with currentPiece := r } = .ok b ∧
      (b = true ↔
        ∃ row col : Int, 0 ≤ row ∧ row < 5 ∧ 0 ≤ col ∧ col < 5 ∧
          cellAt r row col = .ok true ∧
          (g.pieceX + col < 0 ∨ g.pieceX + col ≥ 10 ∨ g.pieceY + row ≥ 20 ∨
            (g.pieceY + row ≥ 0 ∧
              cellAt g.board (g.pieceY + row) (g.pieceX + col) = .ok true))) ∧
      rotate g = .ok g1 ∧
      g1.pieceX = g.pieceX ∧ g1.pieceY = g.pieceY ∧ g1.board = g.board ∧
      g1.score = g.score ∧
      g1.currentPiece = (if b = true then g.currentPiece else r) := by
  refine ⟨rotP g.currentPiece, collides (rotated g),
    (if collides (rotated g) = true then g else rotated g),
    rotatedMask_ok _ hm, fun y x hy0 hy1 hx0 hx1 => rotP_cell _ hm y x hy0 hy1 hx0 hx1,
    checkCollision_ok (rotated g) hb (isMask_rotP _),
    collides_iff (rotated g) hb (isMask_rotP _), rotate_ok g hb hm, ?_⟩
  cases collides (rotated g)
  · exact ⟨rfl, rfl, rfl, rfl, rfl⟩
  · exact ⟨rfl, rfl, rfl, rfl, rfl⟩

theorem rotate_frame_witness :
    isBoard uprightGame.board ∧ isMask uprightGame.currentPiece ∧
      ∃ r b g1, rotatedMask uprightGame.currentPiece = .ok r ∧
        (∀ y x : Int, 0 ≤ y → y < 5 → 0 ≤ x → x < 5 →
          cellAt r y x = cellAt uprightGame.currentPiece (4 - x) y) ∧
        checkCollision { uprightGame with currentPiece := r } = .ok b ∧
        (b = true ↔
          ∃ row col : Int, 0 ≤ row ∧ row < 5 ∧ 0 ≤ col ∧ col < 5 ∧
            cellAt r row col = .ok true ∧
            (uprightGame.pieceX + col < 0 ∨ uprightGame.pieceX + col ≥ 10 ∨
              uprightGame.pieceY + row ≥ 20 ∨
              (uprightGame.pieceY + row ≥ 0 ∧
                cellAt uprightGame.board (uprightGame.pieceY + row)
                  (uprightGame.pieceX + col) = .ok true))) ∧
        rotate uprightGame = .ok g1 ∧
        g1.pieceX = uprightGame.pieceX ∧ g1.pieceY = uprightGame.pieceY ∧
        g1.board = uprightGame.board ∧ g1.score = uprightGame.score ∧
        g1.currentPiece = (if b = true then uprightGame.currentPiece else r) :=
  ⟨by decide, by decide, rotate_frame uprightGame (by decide) (by decide)⟩

/-- C8: `moveLeft` and `moveRight` return and change nothing but `pieceX`; with `b` the
answer of `checkCollision` for the piece one column to the left (resp. right), `pieceX`
becomes `pieceX - 1` (resp. `pieceX + 1`) when `b` is false and keeps its value when `b`
is true. -/
theorem moveLeft_moveRight_frame (g : Game) (hb : isBoard g.board)
    (hm : isMask g.currentPiece) :
    (∃ b g1, checkCollision { g with pieceX := g.pieceX - 1 } = .ok b ∧
      moveLeft g = .ok g1 ∧
      g1.board = g.board ∧ g1.currentPiece = g.currentPiece ∧ g1.pieceY = g.pieceY ∧
      g1.score = g.score ∧ g1.pieceX = (if b = true then g.pieceX else g.pieceX - 1)) ∧
    (∃ b g1, checkCollision { g with pieceX := g.pieceX + 1 } = .ok b ∧
      moveRight g = .ok g1 ∧
      g1.board = g.board ∧ g1.currentPiece = g.currentPiece ∧ g1.pieceY = g.pieceY ∧
      g1.score = g.score ∧ g1.pieceX = (if b = true then g.pieceX else g.pieceX + 1)) := by
  constructor
  · refine ⟨collides { g with pieceX := g.pieceX - 1 }, _,
      checkCollision_ok { g with pieceX := g.pieceX - 1 } hb hm, moveLeft_ok g hb hm, ?_⟩
    cases collides { g with pieceX := g.pieceX - 1 }
    · exact ⟨rfl, rfl, rfl, rfl, rfl⟩
    · exact ⟨rfl, rfl, rfl, rfl, rfl⟩
  · refine ⟨collides { g with pieceX := g.pieceX + 1 }, _,
      checkCollision_ok { g with pieceX := g.pieceX + 1 } hb hm, moveRight_ok g hb hm, ?_⟩
    cases collides { g with pieceX := g.pieceX + 1 }
    · exact ⟨rfl, rfl, rfl, rfl, rfl⟩
    · exact ⟨rfl, rfl, rfl, rfl, rfl⟩

theorem moveLeft_moveRight_frame_witness :
    isBoard wallGame.board ∧ isMask wallGame.currentPiece ∧
      ((∃ b g1, checkCollision { wallGame with pieceX := wallGame.pieceX - 1 } = .ok b ∧
        moveLeft wallGame = .ok g1 ∧
        g1.board = wallGame.board ∧ g1.currentPiece = wallGame.currentPiece ∧
        g1.pieceY = wallGame.pieceY ∧ g1.score = wallGame.score ∧
        g1.pieceX = (if b = true then wallGame.pieceX else wallGame.pieceX - 1)) ∧
      (∃ b g1, checkCollision { wallGame with pieceX := wallGame.pieceX + 1 } = .ok b ∧
        moveRight wallGame = .ok g1 ∧
        g1.board = wallGame.board ∧ g1.currentPiece = wallGame.currentPiece ∧
        g1.pieceY = wallGame.pieceY ∧ g1.score = wallGame.score ∧
        g1.pieceX = (if b = true then wallGame.pieceX else wallGame.pieceX + 1))) :=
  ⟨by decide, by decide, moveLeft_moveRight_frame wallGame (by decide) (by decide)⟩

theorem shapeMask_cells : ∀ (pick : Fin 7) (row col : Fin 5),
    cellAt (shapeMask pick) (row.val : Int) (col.val : Int)
      = .ok (catalogChar pick row col == 'X') := by
  decide

/-- C9: game over is reported exactly when a spawn placement collides.  On a 20x10 board
`spawnPiece` returns `false` if and only if the chosen shape at `(3, 0)` collides with
the board; `moveDown` returns `false` if and only if the downward step collides and the
shape spawned after `mergePiece` and `clearLines` collides; on `blockedBoard` the spawn
fails for each of the seven shapes. -/
theorem gameOver_iff_spawn_collides :
    (∀ (g : Game) (pick : Fin 7), isBoard g.board →
      ∃ g1 alive, spawnPiece g pick = .ok (g1, alive) ∧
        (alive = false ↔ checkCollision (spawned g pick) = .ok true)) ∧
    (∀ (g : Game) (pick : Fin 7), isBoard g.board → isMask g.currentPiece →
      ∃ g1 alive, moveDown g pick = .ok (g1, alive) ∧
        (alive = false ↔
          (checkCollision (stepped g) = .ok true ∧
            ∃ gm gc, mergePiece g = .ok gm ∧ clearLines gm = .ok gc ∧
              checkCollision (spawned gc pick) = .ok true))) ∧
    (∀ pick : Fin 7, checkCollision (spawned blockedGame pick) = .ok true ∧
      ∃ g1, spawnPiece blockedGame pick = .ok (g1, false)) := by
  refine ⟨?_, ?_, ?_⟩
  · intro g pick hb
    refine ⟨_, _, spawnPiece_ok g hb pick, ?_⟩
    rw [checkCollision_ok (spawned g pick) hb (isMask_shapeMask pick)]
    cases collides (spawned g pick)
    · simp
    · simp
  · intro g pick hb hm
    have hmb := (mergePiece_ok g hb hm).2
    have hlb : isBoard (locked g).board := isBoard_compactOnce _ hmb
    rw [moveDown_ok g hb hm pick, checkCollision_ok (stepped g) hb hm]
    cases hc : collides (stepped g)
    · refine ⟨stepped g, true, rfl, ?_⟩
      constructor
      · intro h; cases h
      · rintro ⟨h, _⟩
        cases Except.ok.inj h
    · refine ⟨spawned (locked g) pick, !collides (spawned (locked g) pick), rfl, ?_⟩
      constructor
      · intro h
        refine ⟨rfl, { g with board := mergedBoard g }, locked g, (mergePiece_ok g hb hm).1,
          clearLines_ok _ hmb, ?_⟩
        rw [checkCollision_ok (spawned (locked g) pick) hlb (isMask_shapeMask pick)]
        congr 1
        simpa using h
      · rintro ⟨_, gm, gc, h1, h2, h3⟩
        rw [(mergePiece_ok g hb hm).1] at h1
        cases Except.ok.inj h1
        rw [clearLines_ok _ hmb] at h2
        have h4 : locked g = gc := Except.ok.inj h2
        rw [← h4, checkCollision_ok (spawned (locked g) pick) hlb (isMask_shapeMask pick)] at h3
        rw [Except.ok.inj h3]
        rfl
  · intro pick
    refine ⟨?_, spawned blockedGame pick, ?_⟩
    · revert pick; decide
    · revert pick; decide

theorem gameOver_iff_spawn_collides_witness :
    isBoard towerGame.board ∧ isMask towerGame.currentPiece ∧
      (∃ g1 alive, spawnPiece towerGame 3 = .ok (g1, alive) ∧
        (alive = false ↔ checkCollision (spawned towerGame 3) = .ok true)) ∧
      (∃ g1 alive, moveDown towerGame 3 = .ok (g1, alive) ∧
        (alive = false ↔
          (checkCollision (stepped towerGame) = .ok true ∧
            ∃ gm gc, mergePiece towerGame = .ok gm ∧ clearLines gm = .ok gc ∧
              checkCollision (spawned gc 3) = .ok true))) :=
  ⟨by decide, by decide, gameOver_iff_spawn_collides.1 towerGame 3 (by decide),
    gameOver_iff_spawn_collides.2.1 towerGame 3 (by decide) (by decide)⟩

/-- C10: on a 20x10 board `spawnPiece` with catalog index `pick` returns, sets
`pieceX = 3 = 10/2 - 2` and `pieceY = 0`, installs a 5x5 mask whose cell `(row, col)` is
occupied exactly when catalog shape `pick` has `X` there, and leaves the board and the
score as they were, whatever the collision result. -/
theorem spawnPiece_sets (g : Game) (hb : isBoard g.board) (pick : Fin 7) :
    ∃ g1 alive, spawnPiece g pick = .ok (g1, alive) ∧
      g1.pieceX = 3 ∧ g1.pieceX = boardWidth / 2 - 2 ∧ g1.pieceY = 0 ∧
      isMask g1.currentPiece ∧
      (∀ row col : Fin 5, cellAt g1.currentPiece (row.val : Int) (col.val : Int)
        = .ok (catalogChar pick row col == 'X')) ∧
      g1.board = g.board ∧ g1.score = g.score :=
  ⟨_, _, spawnPiece_ok g hb pick, rfl, rfl, rfl, isMask_shapeMask pick,
    shapeMask_cells pick, rfl, rfl⟩

theorem spawnPiece_sets_witness :
    isBoard blockedGame.board ∧
      ∃ g1 alive, spawnPiece blockedGame 4 = .ok (g1, alive) ∧
        g1.pieceX = 3 ∧ g1.pieceX = boardWidth / 2 - 2 ∧ g1.pieceY = 0 ∧
        isMask g1.currentPiece ∧
        (∀ row col : Fin 5, cellAt g1.currentPiece (row.val : Int) (col.val : Int)
          = .ok (catalogChar 4 row col == 'X')) ∧
        g1.board = blockedGame.board ∧ g1.score = blockedGame.score :=
  ⟨by decide, spawnPiece_sets blockedGame (by decide) 4⟩

/-! ## What merging writes -/

theorem get2_set2 {rows cols : Nat} {grid : Grid} (h : hasShape rows cols grid)
    (y1 x1 : Int) (v : Bool) (hy0 : 0 ≤ y1) (hy1 : y1 < rows) (hx0 : 0 ≤ x1) (hx1 : x1 < cols)
    (y x : Int) (hy : 0 ≤ y) (hx : 0 ≤ x) :
    get2 (set2 grid y1 x1 v) y x = if y = y1 ∧ x = x1 then v else get2 grid y x := by
  have hlen : y1.toNat < grid.length := by rw [h.1]; omega
  have hrow : x1.toNat < (grid.getD y1.toNat []).length := by
    rw [hasShape_row h y1 hy0 hy1]; omega
  unfold get2 set2
  by_cases e1 : y = y1
  · subst e1
    have : (grid.set y.toNat ((grid.getD y.toNat []).set x1.toNat v)).getD y.toNat []
        = (grid.getD y.toNat []).set x1.toNat v := by
      rw [List.getD_eq_getElem?_getD, List.getElem?_set_self hlen]
      rfl
    rw [this]
    by_cases e2 : x = x1
    · subst e2
      rw [List.getD_eq_getElem?_getD, List.getElem?_set_self hrow]
      simp
    · have hne : x1.toNat ≠ x.toNat := by omega
      rw [List.getD_eq_getElem?_getD, List.getElem?_set_ne hne]
      simp [e2]
  · have hne : y1.toNat ≠ y.toNat := by omega
    have : (grid.set y1.toNat ((grid.getD y1.toNat []).set x1.toNat v)).getD y.toNat []
        = grid.getD y.toNat [] := by
      rw [List.getD_eq_getElem?_getD, List.getElem?_set_ne hne]
      simp
    rw [this]
    simp [e1]

theorem get2_mergeCell (g : Game) (r c : Int) (board : Grid) (hb : isBoard board)
    (y x : Int) (hy0 : 0 ≤ y) (hy1 : y < 20) (hx0 : 0 ≤ x) (hx1 : x < 10) :
    get2 (mergeCell g r c board) y x = (get2 board y x || covers g r c y x) := by
  unfold mergeCell covers
  by_cases hin : get2 g.currentPiece r c = true ∧ g.pieceY + r ≥ 0 ∧
      g.pieceY + r < boardHeight ∧ g.pieceX + c ≥ 0 ∧ g.pieceX + c < boardWidth
  · rw [if_pos hin, get2_set2 hb _ _ true hin.2.1 hin.2.2.1 hin.2.2.2.1 hin.2.2.2.2 y x hy0 hx0,
      hin.1]
    by_cases e : y = g.pieceY + r ∧ x = g.pieceX + c
    · rw [if_pos e]
      simp [e.1, e.2]
    · rw [if_neg e]
      have : ¬ (g.pieceY + r = y ∧ g.pieceX + c = x) := fun h => e ⟨h.1.symm, h.2.symm⟩
      simp [this]
  · rw [if_neg hin]
    cases hm : get2 g.currentPiece r c
    · simp
    · have : ¬ (g.pieceY + r = y ∧ g.pieceX + c = x) := by
        rintro ⟨h1, h2⟩
        apply hin
        simp only [boardHeight, boardWidth]
        refine ⟨hm, ?_, ?_, ?_, ?_⟩ <;> push_cast <;> omega
      simp [this]

theorem get2_mergeRow (g : Game) (r : Int) (cs : List Int) :
    ∀ board : Grid, isBoard board →
      isBoard (cs.foldl (fun b1 c => mergeCell g r c b1) board) ∧
      ∀ y x : Int, 0 ≤ y → y < 20 → 0 ≤ x → x < 10 →
        get2 (cs.foldl (fun b1 c => mergeCell g r c b1) board) y x
          = (get2 board y x || cs.any fun c => covers g r c y x) := by
  induction cs with
  | nil => intro board hb; exact ⟨hb, by simp⟩
  | cons c cs ih =>
    intro board hb
    have hb1 : isBoard (mergeCell g r c board) := by
      unfold mergeCell
      split
      · rename_i hin
        exact (assignCell_ok hb _ _ true hin.2.1 hin.2.2.1 hin.2.2.2.1 hin.2.2.2.2).2
      · exact hb
    obtain ⟨h1, h2⟩ := ih (mergeCell g r c board) hb1
    refine ⟨h1, ?_⟩
    intro y x hy0 hy1 hx0 hx1
    rw [List.foldl_cons, h2 y x hy0 hy1 hx0 hx1,
      get2_mergeCell g r c board hb y x hy0 hy1 hx0 hx1, List.any_cons, Bool.or_assoc]

theorem get2_mergeRows (g : Game) (rs : List Int) :
    ∀ board : Grid, isBoard board →
      isBoard (rs.foldl
        (fun b r => (upto 5).foldl (fun b1 c => mergeCell g r c b1) b) board) ∧
      ∀ y x : Int, 0 ≤ y → y < 20 → 0 ≤ x → x < 10 →
        get2 (rs.foldl
          (fun b r => (upto 5).foldl (fun b1 c => mergeCell g r c b1) b) board) y x
          = (get2 board y x || rs.any fun r => (upto 5).any fun c => covers g r c y x) := by
  induction rs with
  | nil => intro board hb; exact ⟨hb, by simp⟩
  | cons r rs ih =>
    intro board hb
    obtain ⟨hb1, hrow⟩ := get2_mergeRow g r (upto 5) board hb
    obtain ⟨h1, h2⟩ := ih _ hb1
    refine ⟨h1, ?_⟩
    intro y x hy0 hy1 hx0 hx1
    rw [List.foldl_cons, h2 y x hy0 hy1 hx0 hx1, hrow y x hy0 hy1 hx0 hx1, List.any_cons,
      Bool.or_assoc]

theorem get2_mergedBoard (g : Game) (hb : isBoard g.board) (y x : Int)
    (hy0 : 0 ≤ y) (hy1 : y < 20) (hx0 : 0 ≤ x) (hx1 : x < 10) :
    get2 (mergedBoard g) y x
      = (get2 g.board y x || (upto 5).any fun r => (upto 5).any fun c => covers g r c y x) :=
  (get2_mergeRows g (upto 5) g.board hb).2 y x hy0 hy1 hx0 hx1

/-- C11: on a 20x10 board with a 5x5 mask and any integer position `mergePiece` returns,
the board keeps its shape, and a board cell `(x, y)` is occupied afterwards if and only if
it was occupied before or an occupied mask cell maps onto it; so mask cells that map
outside the board have no effect and no cell is cleared.  The mask, the position and the
score are unchanged. -/
theorem mergePiece_cells (g : Game) (hb : isBoard g.board) (hm : isMask g.currentPiece) :
    ∃ g1, mergePiece g = .ok g1 ∧ isBoard g1.board ∧
      g1.currentPiece = g.currentPiece ∧ g1.pieceX = g.pieceX ∧ g1.pieceY = g.pieceY ∧
      g1.score = g.score ∧
      ∀ y x : Int, 0 ≤ y → y < 20 → 0 ≤ x → x < 10 →
        (cellAt g1.board y x = .ok true ↔
          (cellAt g.board y x = .ok true ∨
            ∃ r c : Int, 0 ≤ r ∧ r < 5 ∧ 0 ≤ c ∧ c < 5 ∧
              cellAt g.currentPiece r c = .ok true ∧
              g.pieceX + c = x ∧ g.pieceY + r = y)) := by
  obtain ⟨he, hmb⟩ := mergePiece_ok g hb hm
  refine ⟨_, he, hmb, rfl, rfl, rfl, rfl, ?_⟩
  intro y x hy0 hy1 hx0 hx1
  show cellAt (mergedBoard g) y x = .ok true ↔ _
  rw [cellAt_true_iff hmb y x hy0 (by exact_mod_cast hy1) hx0 (by exact_mod_cast hx1),
    cellAt_true_iff hb y x hy0 (by exact_mod_cast hy1) hx0 (by exact_mod_cast hx1),
    get2_mergedBoard g hb y x hy0 hy1 hx0 hx1]
  simp only [Bool.or_eq_true, List.any_eq_true, mem_upto, covers, Bool.and_eq_true,
    decide_eq_true_eq]
  constructor
  · rintro (h | ⟨r, ⟨hr0, hr1⟩, c, ⟨hc0, hc1⟩, hcell, hy, hx⟩)
    · exact Or.inl h
    · exact Or.inr ⟨r, c, hr0, by exact_mod_cast hr1, hc0, by exact_mod_cast hc1,
        (cellAt_true_iff hm r c hr0 hr1 hc0 hc1).mpr hcell, hx, hy⟩
  · rintro (h | ⟨r, c, hr0, hr1, hc0, hc1, hcell, hx, hy⟩)
    · exact Or.inl h
    · exact Or.inr ⟨r, ⟨hr0, by exact_mod_cast hr1⟩, c, ⟨hc0, by exact_mod_cast hc1⟩,
        (cellAt_true_iff hm r c hr0 (by exact_mod_cast hr1) hc0
          (by exact_mod_cast hc1)).mp hcell, hy, hx⟩

theorem mergePiece_cells_witness :
    isBoard edgeGame.board ∧ isMask edgeGame.currentPiece ∧
      ∃ g1, mergePiece edgeGame = .ok g1 ∧ isBoard g1.board ∧
        g1.currentPiece = edgeGame.currentPiece ∧ g1.pieceX = edgeGame.pieceX ∧
        g1.pieceY = edgeGame.pieceY ∧ g1.score = edgeGame.score ∧
        ∀ y x : Int, 0 ≤ y → y < 20 → 0 ≤ x → x < 10 →
          (cellAt g1.board y x = .ok true ↔
            (cellAt edgeGame.board y x = .ok true ∨
              ∃ r c : Int, 0 ≤ r ∧ r < 5 ∧ 0 ≤ c ∧ c < 5 ∧
                cellAt edgeGame.currentPiece r c = .ok true ∧
                edgeGame.pieceX + c = x ∧ edgeGame.pieceY + r = y)) :=
  ⟨by decide, by decide, mergePiece_cells edgeGame (by decide) (by decide)⟩

/-! ## Playing from the start -/

theorem freshO_falls : ∀ (k : Fin 16) (pick : Fin 7),
    moveDown (dropped freshO k.val) pick = .ok (dropped freshO (k.val + 1), true) := by
  decide

theorem freshO_play (picks : List (Fin 7)) :
    ∀ k : Nat, k + picks.length ≤ 16 →
      play (dropped freshO k) (picks.map Move.down)
        = .ok (dropped freshO (k + picks.length), true) := by
  induction picks with
  | nil => intro k _; rfl
  | cons p picks ih =>
    intro k hk
    rw [List.length_cons] at hk
    have h1 := freshO_falls ⟨k, by omega⟩ p
    have h2 := ih (k + 1) (by omega)
    show (applyMove (dropped freshO k) (Move.down p) >>= _) = _
    show (moveDown (dropped freshO k) p >>= _) = _
    rw [h1, ok_bind]
    show (play (dropped freshO (k + 1)) (picks.map Move.down) >>= _) = _
    rw [h2, ok_bind, List.length_cons]
    have e : k + 1 + picks.length = k + (picks.length + 1) := by omega
    rw [e]
    rfl

/-- C12, as stated, fails on the code: the `O` piece spawned on the empty board has its
blocks at (4,2), (5,2), (4,3), (5,3), not at (3,0), (4,0), (3,1), (4,1); within 18 calls of
`moveDown` (here with shape 0 drawn at the respawn) the piece has already locked, at
(4,18), (5,18), (4,19), (5,19), and the next piece is at `pieceY = 1`, not 16. -/
theorem scenario_O_as_stated_fails :
    start 1 = .ok (freshO, true) ∧
    pieceCells freshO = [(4, 2), (5, 2), (4, 3), (5, 3)] ∧
    pieceCells freshO ≠ [(3, 0), (4, 0), (3, 1), (4, 1)] ∧
    ∃ g18, play freshO (List.replicate 18 (Move.down 0)) = .ok (g18, true) ∧
      g18.pieceY = 1 ∧ g18.pieceY ≠ 16 ∧
      occupiedCells g18.board = [(4, 18), (5, 18), (4, 19), (5, 19)] ∧
      occupiedCells g18.board ≠ [] ∧
      occupiedCells g18.board ≠ [(3, 16), (4, 16), (3, 17), (4, 17)] := by
  refine ⟨by decide, by decide, by decide,
    { spawned (locked (dropped freshO 16)) 0 with pieceY := 1 }, ?_⟩
  decide

/-- C12, amended: on the empty 10x20 board with the `O` shape spawned the blocks are at
(4,2), (5,2), (4,3), (5,3); 16 calls of `moveDown` proceed without a lock and reach
`pieceY = 16`; one more `moveDown` locks the piece, whatever shape is drawn; the occupied
cells of the board are then exactly (4,18), (5,18), (4,19), (5,19), and the score is 0. -/
theorem scenario_O :
    start 1 = .ok (freshO, true) ∧ freshO.board = emptyBoard ∧ freshO.pieceY = 0 ∧
    pieceCells freshO = [(4, 2), (5, 2), (4, 3), (5, 3)] ∧
    (∀ picks : List (Fin 7), picks.length ≤ 16 →
      play freshO (picks.map Move.down)
        = .ok ({ freshO with pieceY := picks.length }, true)) ∧
    (∀ pick : Fin 7, ∃ g17,
      moveDown { freshO with pieceY := 16 } pick = .ok (g17, true) ∧
      occupiedCells g17.board = [(4, 18), (5, 18), (4, 19), (5, 19)] ∧
      g17.score = 0 ∧ g17.pieceY = 0 ∧ g17.currentPiece = shapeMask pick) := by
  refine ⟨by decide, by decide, by decide, by decide, ?_, ?_⟩
  · intro picks hlen
    have h := freshO_play picks 0 (by omega)
    have e0 : dropped freshO 0 = freshO := by decide
    have e1 : dropped freshO (0 + picks.length) = { freshO with pieceY := picks.length } := by
      show Game.mk _ _ _ _ _ = Game.mk _ _ _ _ _
      congr 1
      show (0 : Int) + ((0 + picks.length : Nat) : Int) = _
      push_cast
      omega
    rw [e0, e1] at h
    exact h
  · intro pick
    refine ⟨spawned (locked (dropped freshO 16)) pick, ?_, ?_, ?_, ?_, ?_⟩
    · revert pick; decide
    · revert pick; decide
    · revert pick; decide
    · rfl
    · rfl

theorem scenario_O_witness :
    (List.replicate 16 (0 : Fin 7)).length ≤ 16 ∧
      play freshO ((List.replicate 16 (0 : Fin 7)).map Move.down)
        = .ok ({ freshO with pieceY := (List.replicate 16 (0 : Fin 7)).length }, true) :=
  ⟨by decide, scenario_O.2.2.2.2.1 (List.replicate 16 0) (by decide)⟩

/-! ## Boards without a full row -/

theorem countFull_eq_zero_iff (rows : Grid) :
    countFull rows = 0 ↔ ∀ row ∈ rows, fullRow row = false := by
  unfold countFull
  rw [List.countP_eq_zero]
  simp

theorem compactOnce_of_no_full (board : Grid) (h : countFull board = 0) :
    compactOnce board = board := by
  rw [compactOnce_eq, h]
  have : (board.filter fun row => !fullRow row) = board := by
    rw [List.filter_eq_self]
    intro row hrow
    rw [(countFull_eq_zero_iff board).mp h row hrow]
    rfl
  rw [this]
  rfl

theorem countFull_compactOnce (board : Grid) : countFull (compactOnce board) = 0 := by
  rw [countFull_eq_zero_iff]
  intro row hrow
  rw [compactOnce_eq] at hrow
  rcases List.mem_append.mp hrow with h | h
  · rw [(List.mem_replicate.mp h).2]; exact emptyRow_not_full
  · simpa using (List.mem_filter.mp h).2

theorem clearLines_of_no_full (g : Game) (hb : isBoard g.board) (h : countFull g.board = 0) :
    clearLines g = .ok g := by
  rw [clearLines_ok g hb, compactOnce_of_no_full g.board h, h]
  cases g
  simp

/-! ## Counting the cells of the mask -/

theorem cellCount_rotP (mask : Grid) (h : isMask mask) :
    cellCount (rotP mask) = cellCount mask := by
  obtain ⟨a0, a1, a2, a3, a4, b0, b1, b2, b3, b4, c0, c1, c2, c3, c4, d0, d1, d2, d3, d4,
    e0, e1, e2, e3, e4, rfl⟩ := isMask_cells mask h
  simp only [cellCount, rotP, upto_five, get2, List.map_cons, List.map_nil, List.sum_cons,
    List.sum_nil]
  simp
  omega

theorem cellCount_shapeMask : ∀ pick : Fin 7, cellCount (shapeMask pick) = 4 := by
  decide

theorem rotate_shape (g : Game) (hb : isBoard g.board) (hm : isMask g.currentPiece) :
    ∃ g1, rotate g = .ok g1 ∧ g1.board = g.board ∧ g1.score = g.score ∧
      isMask g1.currentPiece ∧ cellCount g1.currentPiece = cellCount g.currentPiece ∧
      (collides g = false → collides g1 = false) := by
  rw [rotate_ok g hb hm]
  cases hc : collides { g with currentPiece := rotP g.currentPiece }
  · exact ⟨_, rfl, rfl, rfl, isMask_rotP _, cellCount_rotP _ hm, fun _ => hc⟩
  · exact ⟨_, rfl, rfl, rfl, hm, rfl, fun h => h⟩

theorem index_ok_iff {α : Type} (xs : List α) (i : Int) :
    (∃ v, index xs i = .ok v) ↔ 0 ≤ i ∧ i < xs.length := by
  constructor
  · rintro ⟨v, hv⟩
    have := index_eq_ok xs i v hv
    exact ⟨this.1, this.2.1⟩
  · rintro ⟨h0, h1⟩
    have hlt : i.toNat < xs.length := by omega
    exact ⟨xs[i.toNat], by simp [index, h0, List.getElem?_eq_getElem hlt]⟩

theorem assign_ok_iff {α : Type} (xs : List α) (i : Int) (v : α) :
    (∃ ys, assign xs i v = .ok ys) ↔ 0 ≤ i ∧ i < xs.length := by
  unfold assign
  constructor
  · rintro ⟨ys, hys⟩
    by_contra hn
    rw [if_neg hn] at hys
    cases hys
  · intro h
    exact ⟨_, if_pos h⟩

/-- C14: when the merge of the piece completes no row, `clearLines` after `mergePiece`
returns the merged state itself, board and score included; and on every 20x10 board a
second `clearLines` returns the state that the first one left. -/
theorem reclear_is_noop (g : Game) (hb : isBoard g.board) (hm : isMask g.currentPiece) :
    (∃ gm, mergePiece g = .ok gm ∧ (countFull gm.board = 0 → clearLines gm = .ok gm)) ∧
    (∃ g1, clearLines g = .ok g1 ∧ clearLines g1 = .ok g1) := by
  constructor
  · refine ⟨_, (mergePiece_ok g hb hm).1, fun h0 => ?_⟩
    exact clearLines_of_no_full _ (mergePiece_ok g hb hm).2 h0
  · refine ⟨_, clearLines_ok g hb, ?_⟩
    exact clearLines_of_no_full _ (isBoard_compactOnce _ hb) (countFull_compactOnce _)

theorem reclear_is_noop_witness :
    isBoard towerGame.board ∧ isMask towerGame.currentPiece ∧
      (∃ gm, mergePiece towerGame = .ok gm ∧ countFull gm.board = 0 ∧
        (countFull gm.board = 0 → clearLines gm = .ok gm)) ∧
      (∃ g1, clearLines cascadeGame = .ok g1 ∧ clearLines g1 = .ok g1) :=
  ⟨by decide, by decide,
    ⟨{ towerGame with board := mergedBoard towerGame }, by decide, by decide,
      fun _ => by decide⟩,
    (reclear_is_noop cascadeGame (by decide) (by decide)).2⟩

/-- C15: the catalog has seven shapes, each of five lines of five characters with exactly
four `X`, and each gives a 5x5 mask with four occupied cells; `spawnPiece` installs a mask
of four cells, and after any number of `rotate` calls, accepted or not, the mask is a 5x5
mask with four occupied cells. -/
theorem piece_is_tetromino :
    tetrominoes.length = 7 ∧
    (∀ shape ∈ tetrominoes,
      shape.length = 5 ∧ (∀ line ∈ shape, line.length = 5) ∧ countX shape = 4) ∧
    (∀ pick : Fin 7, isMask (shapeMask pick) ∧ cellCount (shapeMask pick) = 4) ∧
    (∀ (g : Game) (pick : Fin 7), isBoard g.board →
      ∃ g1 alive, spawnPiece g pick = .ok (g1, alive) ∧ isMask g1.currentPiece ∧
        cellCount g1.currentPiece = 4) ∧
    (∀ (n : Nat) (g : Game), isBoard g.board → isMask g.currentPiece →
      cellCount g.currentPiece = 4 →
      ∃ g1, rotateTimes n g = .ok g1 ∧ isMask g1.currentPiece ∧
        cellCount g1.currentPiece = 4) := by
  refine ⟨rfl, by decide, fun pick => ⟨isMask_shapeMask pick, cellCount_shapeMask pick⟩, ?_, ?_⟩
  · intro g pick hb
    exact ⟨_, _, spawnPiece_ok g hb pick, isMask_shapeMask pick, cellCount_shapeMask pick⟩
  · intro n
    induction n with
    | zero => intro g _ hm h4; exact ⟨g, rfl, hm, h4⟩
    | succ n ih =>
      intro g hb hm h4
      obtain ⟨g1, e1, hb1, _, hm1, hc1, _⟩ := rotate_shape g hb hm
      obtain ⟨g2, e2, hm2, h42⟩ := ih g1 (by rw [hb1]; exact hb) hm1 (by rw [hc1]; exact h4)
      refine ⟨g2, ?_, hm2, h42⟩
      show (rotate g >>= fun g1 => rotateTimes n g1) = _
      rw [e1, ok_bind, e2]

theorem piece_is_tetromino_witness :
    isBoard uprightGame.board ∧ isMask uprightGame.currentPiece ∧
      cellCount uprightGame.currentPiece = 4 ∧
      ∃ g1, rotateTimes 6 uprightGame = .ok g1 ∧ isMask g1.currentPiece ∧
        cellCount g1.currentPiece = 4 :=
  ⟨by decide, by decide, by decide,
    piece_is_tetromino.2.2.2.2 6 uprightGame (by decide) (by decide) (by decide)⟩

/-- C16: `NewGame` makes a board of 20 rows of 10 empty cells, and `spawnPiece`,
`moveLeft`, `moveRight`, `rotate`, `mergePiece`, `clearLines` and `moveDown` each return
with a board of 20 rows of 10 cells when started on such a board. -/
theorem board_keeps_dimensions :
    (NewGame.board.length = 20 ∧ ∀ row ∈ NewGame.board, row = List.replicate 10 false) ∧
    (∀ (g : Game) (pick : Fin 7), isBoard g.board →
      ∃ g1 alive, spawnPiece g pick = .ok (g1, alive) ∧ isBoard g1.board) ∧
    (∀ g : Game, isBoard g.board → ∃ g1, clearLines g = .ok g1 ∧ isBoard g1.board) ∧
    (∀ (g : Game) (pick : Fin 7), isBoard g.board → isMask g.currentPiece →
      (∃ g1, moveLeft g = .ok g1 ∧ isBoard g1.board) ∧
      (∃ g1, moveRight g = .ok g1 ∧ isBoard g1.board) ∧
      (∃ g1, rotate g = .ok g1 ∧ isBoard g1.board) ∧
      (∃ g1, mergePiece g = .ok g1 ∧ isBoard g1.board) ∧
      (∃ g1 alive, moveDown g pick = .ok (g1, alive) ∧ isBoard g1.board)) := by
  refine ⟨by decide, ?_, ?_, ?_⟩
  · intro g pick hb
    exact ⟨_, _, spawnPiece_ok g hb pick, hb⟩
  · intro g hb
    exact ⟨_, clearLines_ok g hb, isBoard_compactOnce _ hb⟩
  · intro g pick hb hm
    refine ⟨?_, ?_, ?_, ?_, ?_⟩
    · rw [moveLeft_ok g hb hm]
      cases collides { g with pieceX := g.pieceX - 1 }
      · exact ⟨_, rfl, hb⟩
      · exact ⟨_, rfl, hb⟩
    · rw [moveRight_ok g hb hm]
      cases collides { g with pieceX := g.pieceX + 1 }
      · exact ⟨_, rfl, hb⟩
      · exact ⟨_, rfl, hb⟩
    · obtain ⟨g1, e1, hb1, _⟩ := rotate_shape g hb hm
      exact ⟨g1, e1, by rw [hb1]; exact hb⟩
    · exact ⟨_, (mergePiece_ok g hb hm).1, (mergePiece_ok g hb hm).2⟩
    · rw [moveDown_ok g hb hm pick]
      cases collides (stepped g)
      · exact ⟨_, _, rfl, hb⟩
      · exact ⟨_, _, rfl, isBoard_compactOnce _ (mergePiece_ok g hb hm).2⟩

theorem board_keeps_dimensions_witness :
    isBoard gapGame.board ∧ isMask gapGame.currentPiece ∧
      (∃ g1, clearLines gapGame = .ok g1 ∧ isBoard g1.board) ∧
      (∃ g1 alive, moveDown gapGame 5 = .ok (g1, alive) ∧ isBoard g1.board) :=
  ⟨by decide, by decide, board_keeps_dimensions.2.2.1 gapGame (by decide),
    (board_keeps_dimensions.2.2.2 gapGame 5 (by decide) (by decide)).2.2.2.2⟩

/-- C17: a read or write of a slice returns exactly when the index lies in
`0 .. len - 1`; on a 20x10 board with a 5x5 mask and any integer position
`checkCollision`, `mergePiece`, `rotate` and `clearLines` return, so that none of their
reads and writes of the board, the mask or the rotated mask is out of range. -/
theorem no_index_out_of_range (g : Game) (hb : isBoard g.board)
    (hm : isMask g.currentPiece) :
    (∀ (xs : Grid) (i : Int), (∃ v, index xs i = .ok v) ↔ (0 ≤ i ∧ i < xs.length)) ∧
    (∀ (xs : List Bool) (i : Int), (∃ v, index xs i = .ok v) ↔ (0 ≤ i ∧ i < xs.length)) ∧
    (∀ (xs : List Bool) (i : Int) (v : Bool),
      (∃ ys, assign xs i v = .ok ys) ↔ (0 ≤ i ∧ i < xs.length)) ∧
    (∃ b, checkCollision g = .ok b) ∧
    (∃ g1, mergePiece g = .ok g1) ∧
    (∃ g1, rotate g = .ok g1) ∧
    (∃ g1, clearLines g = .ok g1) := by
  refine ⟨fun xs i => index_ok_iff xs i, fun xs i => index_ok_iff xs i,
    fun xs i v => assign_ok_iff xs i v, ⟨_, checkCollision_ok g hb hm⟩,
    ⟨_, (mergePiece_ok g hb hm).1⟩, ⟨_, rotate_ok g hb hm⟩, ⟨_, clearLines_ok g hb⟩⟩

theorem no_index_out_of_range_witness :
    isBoard edgeGame.board ∧ isMask edgeGame.currentPiece ∧
      (∃ b, checkCollision edgeGame = .ok b) ∧
      (∃ g1, mergePiece edgeGame = .ok g1) ∧
      (∃ g1, rotate edgeGame = .ok g1) ∧
      (∃ g1, clearLines edgeGame = .ok g1) :=
  ⟨by decide, by decide,
    (no_index_out_of_range edgeGame (by decide) (by decide)).2.2.2⟩

/-! ## The loop of `clearLines`, step by step -/

theorem error_bind {α β : Type} (e : Fault) (f : α → Run β) :
    ((Except.error e : Run α) >>= f) = .error e := rfl

theorem clearLoopLog_fst (fuel : Nat) : ∀ (g : Game) (y : Int),
    (clearLoopLog fuel g y).map Prod.fst = clearLoop fuel g y := by
  induction fuel with
  | zero => intro g y; rfl
  | succ fuel ih =>
    intro g y
    unfold clearLoopLog clearLoop
    by_cases hy : y ≥ 0
    · rw [if_pos hy, if_pos hy]
      cases rowIsFull g.board y (upto boardWidth) with
      | error e => rfl
      | ok full =>
        rw [ok_bind, ok_bind]
        cases full
        · rw [if_neg (by simp), if_neg (by simp)]
          rw [← ih g (y - 1)]
          cases clearLoopLog fuel g (y - 1) with
          | error e => rfl
          | ok r => rfl
        · rw [if_pos rfl, if_pos rfl]
          show Except.map Prod.fst (shiftDown g.board y.toNat >>= _)
            = (shiftDown g.board y.toNat >>= _)
          cases shiftDown g.board y.toNat with
          | error e => rfl
          | ok b1 =>
            rw [ok_bind, ok_bind]
            cases clearTop b1 with
            | error e => rfl
            | ok b2 =>
              rw [ok_bind, ok_bind]
              rw [← ih _ (y + 1 - 1)]
              cases clearLoopLog fuel _ (y + 1 - 1) with
              | error e => rfl
              | ok r => rfl
    · rw [if_neg hy, if_neg hy]
      rfl

theorem clearLoopLog_log (fuel : Nat) : ∀ (g : Game) (y : Int) (g1 : Game)
    (log : List (Int × Bool)), -1 ≤ y → clearLoopLog fuel g y = .ok (g1, log) →
    (∀ e ∈ log, 0 ≤ e.1 ∧ e.1 ≤ y) ∧
    g1.score = g.score + 100 * ((log.countP fun e => e.2 : Nat) : Int) ∧
    (log.length : Int) = y + 1 + ((log.countP fun e => e.2 : Nat) : Int) := by
  induction fuel with
  | zero => intro g y g1 log _ h; cases h
  | succ fuel ih =>
    intro g y g1 log hy1 h
    unfold clearLoopLog at h
    by_cases hy : y ≥ 0
    · rw [if_pos hy] at h
      cases hfull : rowIsFull g.board y (upto boardWidth) with
      | error e => rw [hfull] at h; cases h
      | ok full =>
        rw [hfull, ok_bind] at h
        cases full
        · rw [if_neg (by simp)] at h
          cases hrec : clearLoopLog fuel g (y - 1) with
          | error e => rw [hrec] at h; cases h
          | ok r =>
            obtain ⟨g2, log2⟩ := r
            rw [hrec] at h
            have h' : (g2, (y, false) :: log2) = (g1, log) := Except.ok.inj h
            obtain ⟨i1, i2, i3⟩ := ih g (y - 1) g2 log2 (by omega) hrec
            cases h'
            refine ⟨?_, ?_, ?_⟩
            · intro e he
              rcases List.mem_cons.mp he with rfl | he
              · exact ⟨hy, le_refl _⟩
              · have := i1 e he
                exact ⟨this.1, by omega⟩
            · simpa [List.countP_cons] using i2
            · simp only [List.length_cons, List.countP_cons]
              push_cast
              simp
              omega
        · rw [if_pos rfl] at h
          change (shiftDown g.board y.toNat >>= _) = _ at h
          cases hsd : shiftDown g.board y.toNat with
          | error e => rw [hsd] at h; cases h
          | ok b1 =>
            rw [hsd, ok_bind] at h
            cases hct : clearTop b1 with
            | error e => rw [hct] at h; cases h
            | ok b2 =>
              rw [hct, ok_bind] at h
              cases hrec : clearLoopLog fuel
                  { board := b2, currentPiece := g.currentPiece, pieceX := g.pieceX,
                    pieceY := g.pieceY, score := g.score + 100 } (y + 1 - 1) with
              | error e => rw [hrec] at h; cases h
              | ok r =>
                obtain ⟨g2, log2⟩ := r
                rw [hrec] at h
                have h' : (g2, (y, true) :: log2) = (g1, log) := Except.ok.inj h
                obtain ⟨i1, i2, i3⟩ := ih _ (y + 1 - 1) g2 log2 (by omega) hrec
                cases h'
                refine ⟨?_, ?_, ?_⟩
                · intro e he
                  rcases List.mem_cons.mp he with rfl | he
                  · exact ⟨hy, le_refl _⟩
                  · have := i1 e he
                    exact ⟨this.1, by omega⟩
                · simp only [List.countP_cons] at i2 ⊢
                  rw [i2]
                  push_cast
                  ring
                · simp only [List.length_cons, List.countP_cons]
                  push_cast
                  omega
    · rw [if_neg hy] at h
      have h' : (g, ([] : List (Int × Bool))) = (g1, log) := Except.ok.inj h
      cases h'
      refine ⟨by simp, by simp, ?_⟩
      simp only [List.length_nil, List.countP_nil]
      push_cast
      omega

theorem clearStep_ok (board : Grid) (hb : isBoard board) (y : Int) (hy0 : 0 ≤ y)
    (hy1 : y < 20) (hfull : fullRow (board.getD y.toNat []) = true) :
    ∃ b1, shiftDown board y.toNat = .ok b1 ∧
      clearTop b1 = .ok (emptyRow :: (board.take y.toNat ++ board.drop (y.toNat + 1))) ∧
      countFull (emptyRow :: (board.take y.toNat ++ board.drop (y.toNat + 1))) + 1
        = countFull board := by
  have hlt : y.toNat < board.length := by rw [hb.1]; omega
  obtain ⟨r0, rest, rfl⟩ : ∃ r0 rest, board = r0 :: rest := by
    cases board with
    | nil => simp at hlt
    | cons r0 rest => exact ⟨r0, rest, rfl⟩
  refine ⟨r0 :: ((r0 :: rest).take y.toNat ++ (r0 :: rest).drop (y.toNat + 1)), ?_, ?_, ?_⟩
  · rw [shiftDown_ok 10 y.toNat (r0 :: rest) hlt hb.2]
    rfl
  · exact clearTop_ok r0 _ (hb.2 r0 (List.mem_cons_self r0 rest))
  · have hsplit : (r0 :: rest).take y.toNat
        ++ (r0 :: rest)[y.toNat] :: (r0 :: rest).drop (y.toNat + 1) = r0 :: rest := by
      rw [← List.drop_eq_getElem_cons hlt, List.take_append_drop]
    rw [List.getD_eq_getElem _ _ hlt] at hfull
    have hc : countFull (r0 :: rest)
        = countFull ((r0 :: rest).take y.toNat) + 1
          + countFull ((r0 :: rest).drop (y.toNat + 1)) := by
      conv_lhs => rw [← hsplit]
      unfold countFull
      rw [List.countP_append, List.countP_cons, hfull]
      simp
      omega
    rw [hc]
    unfold countFull
    rw [List.countP_cons, List.countP_append, emptyRow_not_full]
    simp
    omega

/-- C19: on every 20x10 board the loop of `clearLines` ends within the budget `clearFuel`
and any larger one, with the same result; the loop body runs only with `0 <= y <= 19`,
its clear branch runs once for each full row of the board, so at most 20 times, and the
body runs at most 40 times.  One clear (shift and emptied top row) of a full row leaves a
board with one full row less. -/
theorem clearLines_terminates (g : Game) (hb : isBoard g.board) :
    (∀ fuel : Nat, clearFuel ≤ fuel →
      ∃ g1 log, clearLoopLog fuel g (boardHeight - 1) = .ok (g1, log) ∧
        clearLoop fuel g (boardHeight - 1) = .ok g1 ∧ clearLines g = .ok g1 ∧
        (∀ e ∈ log, 0 ≤ e.1 ∧ e.1 ≤ 19) ∧
        (log.countP fun e => e.2) = countFull g.board ∧
        (log.countP fun e => e.2) ≤ 20 ∧ log.length ≤ 40) ∧
    (∀ y : Int, 0 ≤ y → y < 20 → rowIsFull g.board y (upto boardWidth) = .ok true →
      ∃ b1 b2, shiftDown g.board y.toNat = .ok b1 ∧ clearTop b1 = .ok b2 ∧
        b2.head? = some emptyRow ∧ countFull b2 + 1 = countFull g.board) := by
  constructor
  · intro fuel hfuel
    have hloop := clearLoop_board fuel hfuel g hb
    have hfst := clearLoopLog_fst fuel g (boardHeight - 1)
    rw [hloop] at hfst
    cases hlog : clearLoopLog fuel g (boardHeight - 1) with
    | error e => rw [hlog] at hfst; cases hfst
    | ok r =>
      obtain ⟨g1, log⟩ := r
      rw [hlog] at hfst
      have hg1 : g1 = _ := Except.ok.inj hfst
      obtain ⟨i1, i2, i3⟩ := clearLoopLog_log fuel g (boardHeight - 1) g1 log
        (by simp [boardHeight]) hlog
      have hcount : (log.countP fun e => e.2) = countFull g.board := by
        rw [hg1] at i2
        have : g.score + 100 * (countFull g.board : Int)
            = g.score + 100 * ((log.countP fun e => e.2 : Nat) : Int) := i2
        omega
      have hc : countFull g.board ≤ 20 := by
        have := countFull_add_kept g.board
        rw [hb.1] at this
        omega
      refine ⟨g1, log, rfl, ?_, ?_, ?_, hcount, by omega, ?_⟩
      · rw [hloop, hg1]
      · rw [clearLines_ok g hb, hg1]
      · intro e he
        have := i1 e he
        simp only [boardHeight] at this
        exact ⟨this.1, by omega⟩
      · simp only [boardHeight] at i3
        omega
  · intro y hy0 hy1 hfull
    rw [rowIsFull_row g.board hb y hy0 hy1] at hfull
    obtain ⟨b1, h1, h2, h3⟩ := clearStep_ok g.board hb y hy0 hy1 (Except.ok.inj hfull)
    exact ⟨b1, _, h1, h2, rfl, h3⟩

theorem clearLines_terminates_witness :
    isBoard cascadeGame.board ∧
      (clearFuel ≤ 100 ∧
        ∃ g1 log, clearLoopLog 100 cascadeGame (boardHeight - 1) = .ok (g1, log) ∧
          clearLoop 100 cascadeGame (boardHeight - 1) = .ok g1 ∧
          clearLines cascadeGame = .ok g1 ∧
          (∀ e ∈ log, 0 ≤ e.1 ∧ e.1 ≤ 19) ∧
          (log.countP fun e => e.2) = countFull cascadeGame.board ∧
          (log.countP fun e => e.2) ≤ 20 ∧ log.length ≤ 40) ∧
      (rowIsFull cascadeGame.board 16 (upto boardWidth) = .ok true ∧
        ∃ b1 b2, shiftDown cascadeGame.board (16 : Int).toNat = .ok b1 ∧
          clearTop b1 = .ok b2 ∧
          b2.head? = some emptyRow ∧ countFull b2 + 1 = countFull cascadeGame.board) :=
  ⟨by decide,
    ⟨by decide, (clearLines_terminates cascadeGame (by decide)).1 100 (by decide)⟩,
    ⟨by decide,
      (clearLines_terminates cascadeGame (by decide)).2 16 (by decide) (by decide)
        (by decide)⟩⟩

/-! ## How many rows a merge can complete -/

theorem mergeCell_cases (g : Game) (r c : Int) (board : Grid) :
    mergeCell g r c board = board ∨
      (get2 g.currentPiece r c = true ∧
        ∃ row, mergeCell g r c board = board.set (g.pieceY + r).toNat row) := by
  unfold mergeCell
  split
  · rename_i hin
    exact Or.inr ⟨hin.1, _, rfl⟩
  · exact Or.inl rfl

theorem mergeRow_cases (g : Game) (r : Int) (cs : List Int) :
    ∀ board : Grid,
      cs.foldl (fun b1 c => mergeCell g r c b1) board = board ∨
        ((cs.any fun c => get2 g.currentPiece r c) = true ∧
          ∃ row, cs.foldl (fun b1 c => mergeCell g r c b1) board
            = board.set (g.pieceY + r).toNat row) := by
  induction cs with
  | nil => intro board; exact Or.inl rfl
  | cons c cs ih =>
    intro board
    rw [List.foldl_cons, List.any_cons]
    rcases mergeCell_cases g r c board with h1 | ⟨hc, row1, h1⟩
    · rw [h1]
      rcases ih board with h2 | ⟨ha, row, h2⟩
      · exact Or.inl h2
      · exact Or.inr ⟨by rw [ha]; simp, row, h2⟩
    · rw [h1]
      rcases ih (board.set (g.pieceY + r).toNat row1) with h2 | ⟨_, row, h2⟩
      · exact Or.inr ⟨by rw [hc]; simp, row1, h2⟩
      · refine Or.inr ⟨by rw [hc]; simp, row, ?_⟩
        rw [h2, List.set_set]

theorem countFull_set_le (board : Grid) (i : Nat) (row : List Bool) :
    countFull (board.set i row) ≤ countFull board + 1 := by
  unfold countFull
  by_cases h : i < board.length
  · rw [List.countP_set fullRow board i row h]
    split <;> split <;> omega
  · rw [List.set_eq_of_length_le (by omega)]
    omega

theorem countFull_mergeRow (g : Game) (r : Int) (board : Grid) :
    countFull ((upto 5).foldl (fun b1 c => mergeCell g r c b1) board)
      ≤ countFull board + (if rowHas g r = true then 1 else 0) := by
  rcases mergeRow_cases g r (upto 5) board with h | ⟨ha, row, h⟩
  · rw [h]; omega
  · rw [h]
    have : rowHas g r = true := ha
    rw [if_pos this]
    exact countFull_set_le board _ row

theorem countFull_mergeRows (g : Game) (rs : List Int) :
    ∀ board : Grid,
      countFull (rs.foldl
        (fun b r => (upto 5).foldl (fun b1 c => mergeCell g r c b1) b) board)
        ≤ countFull board + (rs.map fun r => if rowHas g r = true then 1 else 0).sum := by
  induction rs with
  | nil => intro board; simp
  | cons r rs ih =>
    intro board
    rw [List.foldl_cons, List.map_cons, List.sum_cons]
    have h1 := ih ((upto 5).foldl (fun b1 c => mergeCell g r c b1) board)
    have h2 := countFull_mergeRow g r board
    omega

theorem any_le_sum (row : List Bool) :
    (if row.any id = true then 1 else 0) ≤ (row.map Bool.toNat).sum := by
  induction row with
  | nil => simp
  | cons a row ih =>
    cases a
    · simpa using ih
    · simp

theorem rows_le_cellCount (mask : Grid) :
    (mask.map fun row => if row.any id = true then 1 else 0).sum ≤ cellCount mask := by
  unfold cellCount
  induction mask with
  | nil => simp
  | cons row mask ih =>
    rw [List.map_cons, List.sum_cons, List.map_cons, List.sum_cons]
    have := any_le_sum row
    omega

theorem rowHas_sum (g : Game) (hm : isMask g.currentPiece) :
    ((upto 5).map fun r => if rowHas g r = true then 1 else 0).sum
      = (g.currentPiece.map fun row => if row.any id = true then 1 else 0).sum := by
  obtain ⟨board, mask, px, py, sc⟩ := g
  obtain ⟨a0, a1, a2, a3, a4, b0, b1, b2, b3, b4, c0, c1, c2, c3, c4, d0, d1, d2, d3, d4,
    e0, e1, e2, e3, e4, rfl⟩ := isMask_cells mask hm
  rfl

theorem countFull_mergedBoard_le (g : Game) (hm : isMask g.currentPiece) :
    countFull (mergedBoard g) ≤ countFull g.board + cellCount g.currentPiece := by
  have h1 := countFull_mergeRows g (upto 5) g.board
  have h2 := rowHas_sum g hm
  have h3 := rows_le_cellCount g.currentPiece
  unfold mergedBoard
  omega

/-! ## Invariants of play -/

theorem moveLeft_shape (g : Game) (hb : isBoard g.board) (hm : isMask g.currentPiece) :
    ∃ g1, moveLeft g = .ok g1 ∧ g1.board = g.board ∧ g1.currentPiece = g.currentPiece ∧
      g1.score = g.score ∧ (collides g = false → collides g1 = false) := by
  rw [moveLeft_ok g hb hm]
  cases hc : collides { g with pieceX := g.pieceX - 1 }
  · exact ⟨_, rfl, rfl, rfl, rfl, fun _ => hc⟩
  · exact ⟨_, rfl, rfl, rfl, rfl, fun h => h⟩

theorem moveRight_shape (g : Game) (hb : isBoard g.board) (hm : isMask g.currentPiece) :
    ∃ g1, moveRight g = .ok g1 ∧ g1.board = g.board ∧ g1.currentPiece = g.currentPiece ∧
      g1.score = g.score ∧ (collides g = false → collides g1 = false) := by
  rw [moveRight_ok g hb hm]
  cases hc : collides { g with pieceX := g.pieceX + 1 }
  · exact ⟨_, rfl, rfl, rfl, rfl, fun _ => hc⟩
  · exact ⟨_, rfl, rfl, rfl, rfl, fun h => h⟩

theorem moveDown_playable (g : Game) (hp : Playable g) (pick : Fin 7) :
    ∃ g1 alive, moveDown g pick = .ok (g1, alive) ∧ Playable g1 ∧
      (∃ k : Nat, k ≤ 4 ∧ g1.score = g.score + 100 * (k : Int)) ∧
      (alive = true → collides g1 = false) := by
  obtain ⟨hb, hm, h4, h0, n, hn⟩ := hp
  rw [moveDown_ok g hb hm pick]
  cases hc : collides (stepped g)
  · exact ⟨stepped g, true, rfl, ⟨hb, hm, h4, h0, n, hn⟩, ⟨0, by omega, by simp [stepped]⟩,
      fun _ => hc⟩
  · have hk : countFull (mergedBoard g) ≤ 4 := by
      have := countFull_mergedBoard_le g hm
      omega
    refine ⟨spawned (locked g) pick, !collides (spawned (locked g) pick), rfl,
      ⟨isBoard_compactOnce _ (mergePiece_ok g hb hm).2, isMask_shapeMask pick,
        cellCount_shapeMask pick, countFull_compactOnce _,
        n + countFull (mergedBoard g), ?_⟩,
      ⟨countFull (mergedBoard g), hk, rfl⟩, ?_⟩
    · show g.score + 100 * (countFull (mergedBoard g) : Int) = _
      rw [hn]
      push_cast
      ring
    · intro h
      simpa using h

theorem applyMove_playable (g : Game) (hp : Playable g) (m : Move) :
    ∃ g1 alive, applyMove g m = .ok (g1, alive) ∧ Playable g1 ∧
      (∃ k : Nat, k ≤ 4 ∧ g1.score = g.score + 100 * (k : Int)) ∧
      (collides g = false → alive = true → collides g1 = false) := by
  obtain ⟨hb, hm, h4, h0, hn⟩ := hp
  cases m with
  | left =>
    obtain ⟨g1, e, e1, e2, e3, hc⟩ := moveLeft_shape g hb hm
    refine ⟨g1, true, ?_, ⟨by rw [e1]; exact hb, by rw [e2]; exact hm, by rw [e2]; exact h4,
      by rw [e1]; exact h0, by rw [e3]; exact hn⟩, ⟨0, by omega, by simp [e3]⟩,
      fun h _ => hc h⟩
    show (moveLeft g >>= _) = _
    rw [e]; rfl
  | right =>
    obtain ⟨g1, e, e1, e2, e3, hc⟩ := moveRight_shape g hb hm
    refine ⟨g1, true, ?_, ⟨by rw [e1]; exact hb, by rw [e2]; exact hm, by rw [e2]; exact h4,
      by rw [e1]; exact h0, by rw [e3]; exact hn⟩, ⟨0, by omega, by simp [e3]⟩,
      fun h _ => hc h⟩
    show (moveRight g >>= _) = _
    rw [e]; rfl
  | rotate =>
    obtain ⟨g1, e, e1, e3, hm1, hc1, hc⟩ := rotate_shape g hb hm
    refine ⟨g1, true, ?_, ⟨by rw [e1]; exact hb, hm1, by rw [hc1]; exact h4,
      by rw [e1]; exact h0, by rw [e3]; exact hn⟩, ⟨0, by omega, by simp [e3]⟩,
      fun h _ => hc h⟩
    show (rotate g >>= _) = _
    rw [e]; rfl
  | down pick =>
    obtain ⟨g1, alive, e, hp1, hk, hc⟩ := moveDown_playable g ⟨hb, hm, h4, h0, hn⟩ pick
    exact ⟨g1, alive, e, hp1, hk, fun _ ha => hc ha⟩

theorem play_playable (ms : List Move) : ∀ g : Game, Playable g →
    ∃ g1 b, play g ms = .ok (g1, b) ∧ Playable g1 ∧ g.score ≤ g1.score ∧
      (collides g = false → b = true → collides g1 = false) := by
  induction ms with
  | nil => intro g hp; exact ⟨g, true, rfl, hp, le_refl _, fun h _ => h⟩
  | cons m ms ih =>
    intro g hp
    obtain ⟨g1, a, e1, hp1, ⟨k, _, hk⟩, hc1⟩ := applyMove_playable g hp m
    obtain ⟨g2, b, e2, hp2, hs2, hc2⟩ := ih g1 hp1
    refine ⟨g2, a && b, ?_, hp2, by omega, ?_⟩
    · show (applyMove g m >>= _) = _
      rw [e1, ok_bind]
      show (play g1 ms >>= _) = _
      rw [e2]
      rfl
    · intro hc hab
      rw [Bool.and_eq_true] at hab
      exact hc2 (hc1 hc hab.1) hab.2

theorem start_playable : ∀ pick : Fin 7,
    start pick = .ok (spawned NewGame pick, true) ∧
      collides (spawned NewGame pick) = false ∧ (spawned NewGame pick).score = 0 := by
  decide

theorem spawned_NewGame_playable (pick : Fin 7) : Playable (spawned NewGame pick) := by
  have hb : isBoard NewGame.board := by decide
  have h0 : countFull NewGame.board = 0 := by decide
  exact ⟨hb, isMask_shapeMask pick, cellCount_shapeMask pick, h0, 0, rfl⟩

theorem free_cells (g : Game) (hb : isBoard g.board) (hm : isMask g.currentPiece)
    (hc : collides g = false) (r c : Int) (hr0 : 0 ≤ r) (hr1 : r < 5) (hc0 : 0 ≤ c)
    (hc1 : c < 5) (hcell : cellAt g.currentPiece r c = .ok true) :
    0 ≤ g.pieceX + c ∧ g.pieceX + c ≤ 9 ∧ g.pieceY + r < 20 ∧
      (0 ≤ g.pieceY + r → cellAt g.board (g.pieceY + r) (g.pieceX + c) = .ok false) := by
  have hno : ¬ collides g = true := by rw [hc]; simp
  rw [collides_iff g hb hm] at hno
  have h1 : ¬ g.pieceX + c < 0 := fun h =>
    hno ⟨r, c, hr0, hr1, hc0, hc1, hcell, Or.inl h⟩
  have h2 : ¬ g.pieceX + c ≥ 10 := fun h =>
    hno ⟨r, c, hr0, hr1, hc0, hc1, hcell, Or.inr (Or.inl h)⟩
  have h3 : ¬ g.pieceY + r ≥ 20 := fun h =>
    hno ⟨r, c, hr0, hr1, hc0, hc1, hcell, Or.inr (Or.inr (Or.inl h))⟩
  refine ⟨by omega, by omega, by omega, fun h0 => ?_⟩
  have hok := cellAt_ok hb (g.pieceY + r) (g.pieceX + c) h0 (by push_cast; omega) (by omega)
    (by push_cast; omega)
  rw [hok]
  cases hv : get2 g.board (g.pieceY + r) (g.pieceX + c)
  · rfl
  · exfalso
    apply hno
    refine ⟨r, c, hr0, hr1, hc0, hc1, hcell, Or.inr (Or.inr (Or.inr ⟨h0, ?_⟩))⟩
    rw [hok, hv]

/-- C13: the score is 0 in `NewGame`; `spawnPiece`, `moveLeft`, `moveRight`, `rotate` and
`mergePiece` return with the score unchanged, `clearLines` returns with 100 added for each
full row of the board, and `moveDown` returns with a multiple of 100 added; in every state
reached from the start by any calls of `moveLeft`, `moveRight`, `rotate` and `moveDown`
the score is a non-negative multiple of 100. -/
theorem score_never_decreases :
    NewGame.score = 0 ∧
    (∀ (g : Game) (pick : Fin 7), isBoard g.board →
      ∃ g1 alive, spawnPiece g pick = .ok (g1, alive) ∧ g1.score = g.score) ∧
    (∀ g : Game, isBoard g.board →
      ∃ g1, clearLines g = .ok g1 ∧ g1.score = g.score + 100 * (countFull g.board : Int) ∧
        g.score ≤ g1.score) ∧
    (∀ (g : Game) (pick : Fin 7), isBoard g.board → isMask g.currentPiece →
      (∃ g1, moveLeft g = .ok g1 ∧ g1.score = g.score) ∧
      (∃ g1, moveRight g = .ok g1 ∧ g1.score = g.score) ∧
      (∃ g1, rotate g = .ok g1 ∧ g1.score = g.score) ∧
      (∃ g1, mergePiece g = .ok g1 ∧ g1.score = g.score) ∧
      (∃ g1 alive, moveDown g pick = .ok (g1, alive) ∧ g.score ≤ g1.score ∧
        ∃ k : Nat, g1.score = g.score + 100 * (k : Int))) ∧
    (∀ (pick : Fin 7) (ms : List Move),
      ∃ g0 g1 b, start pick = .ok (g0, true) ∧ g0.score = 0 ∧ play g0 ms = .ok (g1, b) ∧
        ∃ n : Nat, g1.score = 100 * (n : Int)) := by
  refine ⟨rfl, ?_, ?_, ?_, ?_⟩
  · intro g pick hb
    exact ⟨_, _, spawnPiece_ok g hb pick, rfl⟩
  · intro g hb
    refine ⟨_, clearLines_ok g hb, rfl, ?_⟩
    show g.score ≤ g.score + 100 * (countFull g.board : Int)
    omega
  · intro g pick hb hm
    refine ⟨?_, ?_, ?_, ?_, ?_⟩
    · obtain ⟨g1, e, _, _, e3, _⟩ := moveLeft_shape g hb hm
      exact ⟨g1, e, e3⟩
    · obtain ⟨g1, e, _, _, e3, _⟩ := moveRight_shape g hb hm
      exact ⟨g1, e, e3⟩
    · obtain ⟨g1, e, _, e3, _⟩ := rotate_shape g hb hm
      exact ⟨g1, e, e3⟩
    · exact ⟨_, (mergePiece_ok g hb hm).1, rfl⟩
    · rw [moveDown_ok g hb hm pick]
      cases collides (stepped g)
      · exact ⟨stepped g, true, rfl, le_refl _, 0, by simp [stepped]⟩
      · refine ⟨spawned (locked g) pick, _, rfl, ?_, countFull (mergedBoard g), rfl⟩
        show g.score ≤ g.score + 100 * (countFull (mergedBoard g) : Int)
        omega
  · intro pick ms
    obtain ⟨e0, _, hs0⟩ := start_playable pick
    obtain ⟨g1, b, e1, hp1, _, _⟩ := play_playable ms _ (spawned_NewGame_playable pick)
    exact ⟨_, g1, b, e0, hs0, e1, hp1.2.2.2.2⟩

theorem score_never_decreases_witness :
    isBoard gapGame.board ∧ isMask gapGame.currentPiece ∧
      (∃ g1, clearLines cascadeGame = .ok g1 ∧
        g1.score = cascadeGame.score + 100 * (countFull cascadeGame.board : Int) ∧
        cascadeGame.score ≤ g1.score) ∧
      (∃ g1 alive, moveDown gapGame 0 = .ok (g1, alive) ∧ gapGame.score ≤ g1.score ∧
        ∃ k : Nat, g1.score = gapGame.score + 100 * (k : Int)) :=
  ⟨by decide, by decide, score_never_decreases.2.2.1 cascadeGame (by decide),
    (score_never_decreases.2.2.2.1 gapGame 0 (by decide) (by decide)).2.2.2.2⟩

/-- C18: `NewGame` followed by `spawnPiece` succeeds for each of the seven shapes, and
after any calls of `moveLeft`, `moveRight`, `rotate` and `moveDown` in which every
`moveDown` returned `true`, `checkCollision` returns `false`: every occupied cell of the
piece is at a column in 0..9, at a row below 20, and on no occupied board cell. -/
theorem piece_never_overlaps (pick : Fin 7) (ms : List Move) :
    ∃ g0 g1 b, start pick = .ok (g0, true) ∧ checkCollision g0 = .ok false ∧
      play g0 ms = .ok (g1, b) ∧
      (b = true →
        checkCollision g1 = .ok false ∧
        ∀ r c : Int, 0 ≤ r → r < 5 → 0 ≤ c → c < 5 →
          cellAt g1.currentPiece r c = .ok true →
          0 ≤ g1.pieceX + c ∧ g1.pieceX + c ≤ 9 ∧ g1.pieceY + r < 20 ∧
            (0 ≤ g1.pieceY + r →
              cellAt g1.board (g1.pieceY + r) (g1.pieceX + c) = .ok false)) := by
  obtain ⟨e0, hc0, _⟩ := start_playable pick
  have hp0 := spawned_NewGame_playable pick
  obtain ⟨g1, b, e1, hp1, _, hc1⟩ := play_playable ms _ hp0
  refine ⟨_, g1, b, e0, ?_, e1, ?_⟩
  · rw [checkCollision_ok _ hp0.1 hp0.2.1, hc0]
  · intro hb
    have hc := hc1 hc0 hb
    refine ⟨by rw [checkCollision_ok _ hp1.1 hp1.2.1, hc], ?_⟩
    intro r c hr0 hr1 hc0 hc1 hcell
    exact free_cells g1 hp1.1 hp1.2.1 hc r c hr0 hr1 hc0 hc1 hcell

/-- C20: in every state reached from the start by any calls of `moveLeft`, `moveRight`,
`rotate` and `moveDown` no row of the board is full, the merge of the piece completes at
most four rows, and the next `moveDown` returns with the score raised by 0, 100, 200, 300
or 400, whatever shape is drawn. -/
theorem lock_clears_at_most_four (pick : Fin 7) (ms : List Move) :
    ∃ g0 g1 b, start pick = .ok (g0, true) ∧ play g0 ms = .ok (g1, b) ∧
      (∀ row ∈ g1.board, fullRow row = false) ∧
      (∀ y : Int, 0 ≤ y → y < 20 → rowIsFull g1.board y (upto boardWidth) = .ok false) ∧
      (∃ gm, mergePiece g1 = .ok gm ∧ countFull gm.board ≤ 4) ∧
      ∀ next : Fin 7, ∃ (g2 : Game) (alive : Bool) (k : Nat),
        moveDown g1 next = .ok (g2, alive) ∧ k ≤ 4 ∧
        g2.score = g1.score + 100 * (k : Int) := by
  obtain ⟨e0, _, _⟩ := start_playable pick
  obtain ⟨g1, b, e1, hp1, _, _⟩ := play_playable ms _ (spawned_NewGame_playable pick)
  have hrows := (countFull_eq_zero_iff g1.board).mp hp1.2.2.2.1
  refine ⟨_, g1, b, e0, e1, hrows, ?_, ?_, ?_⟩
  · intro y hy0 hy1
    rw [rowIsFull_row g1.board hp1.1 y hy0 hy1]
    congr 1
    apply hrows
    have hlt : y.toNat < g1.board.length := by rw [hp1.1.1]; omega
    rw [List.getD_eq_getElem _ _ hlt]
    exact List.getElem_mem hlt
  · refine ⟨_, (mergePiece_ok g1 hp1.1 hp1.2.1).1, ?_⟩
    have := countFull_mergedBoard_le g1 hp1.2.1
    have h0 := hp1.2.2.2.1
    have h4 := hp1.2.2.1
    show countFull (mergedBoard g1) ≤ 4
    omega
  · intro next
    obtain ⟨g2, alive, e2, _, ⟨k, hk, hs⟩, _⟩ := moveDown_playable g1 hp1 next
    exact ⟨g2, alive, k, e2, hk, hs⟩

set_option maxRecDepth 100000 in
theorem piece_never_overlaps_witness :
    (play (spawned NewGame 0) lineMoves).map Prod.snd = .ok true ∧
      ∃ g0 g1 b, start 0 = .ok (g0, true) ∧ checkCollision g0 = .ok false ∧
        play g0 lineMoves = .ok (g1, b) ∧
        (b = true →
          checkCollision g1 = .ok false ∧
          ∀ r c : Int, 0 ≤ r → r < 5 → 0 ≤ c → c < 5 →
            cellAt g1.currentPiece r c = .ok true →
            0 ≤ g1.pieceX + c ∧ g1.pieceX + c ≤ 9 ∧ g1.pieceY + r < 20 ∧
              (0 ≤ g1.pieceY + r →
                cellAt g1.board (g1.pieceY + r) (g1.pieceX + c) = .ok false)) :=
  ⟨by decide, piece_never_overlaps 0 lineMoves⟩

set_option maxRecDepth 100000 in
theorem lock_clears_at_most_four_witness :
    (play (spawned NewGame 0) lineMoves >>= fun p => moveDown p.1 3).map
        (fun p => p.1.score) = .ok 100 ∧
      ∃ g0 g1 b, start 0 = .ok (g0, true) ∧ play g0 lineMoves = .ok (g1, b) ∧
        (∀ row ∈ g1.board, fullRow row = false) ∧
        (∀ y : Int, 0 ≤ y → y < 20 → rowIsFull g1.board y (upto boardWidth) = .ok false) ∧
        (∃ gm, mergePiece g1 = .ok gm ∧ countFull gm.board ≤ 4) ∧
        ∀ next : Fin 7, ∃ (g2 : Game) (alive : Bool) (k : Nat),
          moveDown g1 next = .ok (g2, alive) ∧ k ≤ 4 ∧
          g2.score = g1.score + 100 * (k : Int) :=
  ⟨by decide, lock_clears_at_most_four 0 lineMoves⟩

/-! ## The merged board, cell by cell -/

theorem getD_map_upto {α : Type} (n : Nat) (f : Int → α) (d : α) (i : Int) (h0 : 0 ≤ i)
    (h1 : i < n) : ((upto n).map f).getD i.toNat d = f i := by
  have hlt : i.toNat < ((upto n).map f).length := by
    simp only [upto, List.length_map, List.length_range]
    omega
  rw [List.getD_eq_getElem _ _ hlt]
  simp only [upto, List.getElem_map, List.getElem_range]
  congr 1
  exact Int.toNat_of_nonneg h0

theorem isBoard_overlaid (g : Game) : isBoard (overlaid g) := by
  constructor
  · simp [overlaid, upto]
  · intro row hrow
    unfold overlaid at hrow
    obtain ⟨y, _, rfl⟩ := List.mem_map.mp hrow
    simp [upto]

theorem get2_overlaid (g : Game) (y x : Int) (hy0 : 0 ≤ y) (hy1 : y < 20) (hx0 : 0 ≤ x)
    (hx1 : x < 10) :
    get2 (overlaid g) y x
      = (get2 g.board y x || (upto 5).any fun r => (upto 5).any fun c => covers g r c y x) := by
  unfold get2 overlaid
  rw [getD_map_upto 20 _ [] y hy0 (by exact_mod_cast hy1),
    getD_map_upto 10 _ false x hx0 (by exact_mod_cast hx1)]
  rfl

theorem grid_ext (a b : Grid) (ha : isBoard a) (hb : isBoard b)
    (h : ∀ y x : Int, 0 ≤ y → y < 20 → 0 ≤ x → x < 10 → get2 a y x = get2 b y x) :
    a = b := by
  apply List.ext_getElem (by rw [ha.1, hb.1])
  intro i hi1 hi2
  have hi : i < 20 := by rw [ha.1] at hi1; exact hi1
  have la : (a[i]).length = 10 := ha.2 _ (List.getElem_mem hi1)
  have lb : (b[i]).length = 10 := hb.2 _ (List.getElem_mem hi2)
  apply List.ext_getElem (by rw [la, lb])
  intro j hj1 hj2
  have hj : j < 10 := by rw [la] at hj1; exact hj1
  have := h (i : Int) (j : Int) (by omega) (by omega) (by omega) (by omega)
  unfold get2 at this
  simp only [Int.toNat_ofNat] at this
  rw [List.getD_eq_getElem _ _ hi1, List.getD_eq_getElem _ _ hi2,
    List.getD_eq_getElem _ _ hj1, List.getD_eq_getElem _ _ hj2] at this
  exact this

theorem mergedBoard_eq_overlaid (g : Game) (hb : isBoard g.board)
    (hm : isMask g.currentPiece) : mergedBoard g = overlaid g := by
  apply grid_ext _ _ (mergePiece_ok g hb hm).2 (isBoard_overlaid g)
  intro y x hy0 hy1 hx0 hx1
  rw [get2_mergedBoard g hb y x hy0 hy1 hx0 hx1, get2_overlaid g y x hy0 hy1 hx0 hx1]

/-- C4: when the piece one row lower collides (a lock event), `moveDown` returns with
score = old score + 100 * k for every shape drawn at the respawn, `k` being the number of
full rows of the board with the piece laid over it at the position before the step
(`overlaid`: a cell is occupied when it was occupied or an occupied mask cell maps onto
it); this board is the one that `mergePiece` produces; with `k = 0` the score is
unchanged. -/
theorem moveDown_lock_score (g : Game) (hb : isBoard g.board) (hm : isMask g.currentPiece)
    (pick : Fin 7) (hlock : checkCollision (stepped g) = .ok true) :
    ∃ gm g1 alive, mergePiece g = .ok gm ∧ gm.board = overlaid g ∧
      (∀ y x : Int, 0 ≤ y → y < 20 → 0 ≤ x → x < 10 →
        (cellAt gm.board y x = .ok true ↔
          (cellAt g.board y x = .ok true ∨
            ∃ r c : Int, 0 ≤ r ∧ r < 5 ∧ 0 ≤ c ∧ c < 5 ∧
              cellAt g.currentPiece r c = .ok true ∧
              g.pieceX + c = x ∧ g.pieceY + r = y))) ∧
      moveDown g pick = .ok (g1, alive) ∧
      g1.score = g.score + 100 * (countFull (overlaid g) : Int) ∧
      g1.score = g.score + 100 * (countFull gm.board : Int) ∧
      (countFull (overlaid g) = 0 → g1.score = g.score) ∧
      (countFull gm.board = 0 → g1.score = g.score) := by
  rw [checkCollision_ok (stepped g) hb hm] at hlock
  have hc : collides (stepped g) = true := Except.ok.inj hlock
  have hov := mergedBoard_eq_overlaid g hb hm
  obtain ⟨he, hmb⟩ := mergePiece_ok g hb hm
  refine ⟨{ g with board := mergedBoard g }, spawned (locked g) pick,
    !collides (spawned (locked g) pick), he, hov, ?_, ?_, ?_, rfl, ?_, ?_⟩
  · intro y x hy0 hy1 hx0 hx1
    show cellAt (mergedBoard g) y x = .ok true ↔ _
    rw [cellAt_true_iff hmb y x hy0 (by exact_mod_cast hy1) hx0 (by exact_mod_cast hx1),
      cellAt_true_iff hb y x hy0 (by exact_mod_cast hy1) hx0 (by exact_mod_cast hx1),
      get2_mergedBoard g hb y x hy0 hy1 hx0 hx1]
    simp only [Bool.or_eq_true, List.any_eq_true, mem_upto, covers, Bool.and_eq_true,
      decide_eq_true_eq]
    constructor
    · rintro (h | ⟨r, ⟨hr0, hr1⟩, c, ⟨hc0, hc1⟩, hcell, hy, hx⟩)
      · exact Or.inl h
      · exact Or.inr ⟨r, c, hr0, by exact_mod_cast hr1, hc0, by exact_mod_cast hc1,
          (cellAt_true_iff hm r c hr0 hr1 hc0 hc1).mpr hcell, hx, hy⟩
    · rintro (h | ⟨r, c, hr0, hr1, hc0, hc1, hcell, hx, hy⟩)
      · exact Or.inl h
      · exact Or.inr ⟨r, ⟨hr0, by exact_mod_cast hr1⟩, c, ⟨hc0, by exact_mod_cast hc1⟩,
          (cellAt_true_iff hm r c hr0 (by exact_mod_cast hr1) hc0
            (by exact_mod_cast hc1)).mp hcell, hy, hx⟩
  · rw [moveDown_ok g hb hm pick, hc]
    rfl
  · show g.score + 100 * (countFull (mergedBoard g) : Int) = _
    rw [hov]
  · intro h0
    show g.score + 100 * (countFull (mergedBoard g) : Int) = g.score
    rw [hov, h0]
    simp
  · intro h0
    show g.score + 100 * (countFull (mergedBoard g) : Int) = g.score
    have h1 : countFull (mergedBoard g) = 0 := h0
    rw [h1]
    simp

theorem moveDown_lock_score_witness :
    isBoard gapGame.board ∧ isMask gapGame.currentPiece ∧
      checkCollision (stepped gapGame) = .ok true ∧
      countFull gapGame.board = 0 ∧ countFull (overlaid gapGame) = 2 ∧
      (moveDown gapGame 2).map (fun p => p.1.score) = .ok 200 ∧
      ∃ gm g1 alive, mergePiece gapGame = .ok gm ∧ gm.board = overlaid gapGame ∧
        (∀ y x : Int, 0 ≤ y → y < 20 → 0 ≤ x → x < 10 →
          (cellAt gm.board y x = .ok true ↔
            (cellAt gapGame.board y x = .ok true ∨
              ∃ r c : Int, 0 ≤ r ∧ r < 5 ∧ 0 ≤ c ∧ c < 5 ∧
                cellAt gapGame.currentPiece r c = .ok true ∧
                gapGame.pieceX + c = x ∧ gapGame.pieceY + r = y))) ∧
        moveDown gapGame 2 = .ok (g1, alive) ∧
        g1.score = gapGame.score + 100 * (countFull (overlaid gapGame) : Int) ∧
        g1.score = gapGame.score + 100 * (countFull gm.board : Int) ∧
        (countFull (overlaid gapGame) = 0 → g1.score = gapGame.score) ∧
        (countFull gm.board = 0 → g1.score = gapGame.score) :=
  ⟨by decide, by decide, by decide, by decide, by decide, by decide,
    moveDown_lock_score gapGame (by decide) (by decide) 2 (by decide)⟩

end Tetris
